import Mathlib

/-!
Verification of the librdp protocol engine (src/rdp.c) against its
natural-language specification.

The development shallowly embeds the parts of rdp.c that the claims touch:

* machine integers are modelled as `Nat`/`Int` with explicit `% 2^w`
  reductions exactly where the C code's unsigned arithmetic wraps;
  `size_t` ring-buffer indices are modelled as `Int` (the C conversion of a
  negative promoted-`int` index to `size_t` is a reduction mod `2^64`, which
  is absorbed by the `% size` of the ring lookup because every ring size is
  a power of two dividing `2^64`);
* the ring buffer's `i & mask` indexing is modelled as `i % (mask + 1)`,
  which coincides with the source for the power-of-two sizes the code
  maintains (initial size 64, grown only by doubling);
* packet payload BYTES are elided: send slots carry their header fields and
  payload SIZE (no claim depends on payload contents), and the `memcpy`
  scatter-gather copy in `buildSendPacket` is elided accordingly;
* `malloc`d uninitialized fields (`sentTime` of a fresh send slot) are
  modelled as 0; the code never reads them before writing them
  (`sentTime` is only read for slots with `transmissions > 0`);
* debug-only `assert`/logging code is elided.

Loops that are not structurally recursive in their C form are modelled with
an explicit fuel argument that is provably sufficient at every call site
(`growLoopF`, `buildSendPacketF`, `writeLoopF`), so that every definition
evaluates by kernel reduction on concrete inputs.
-/

namespace Librdp

/-! ### Compile-time constants (rdp.c lines 23-81) -/

def RDP_QUEUE_SIZE_MAX : Nat := 16 * 1024

def RDP_RETRANSMIT_TIMEOUT_MIN : Nat := 200

def RDP_RETRANSMIT_TIMEOUT_MAX : Nat := 1000

def RDP_RETRANSMIT_TIMEOUT_DEFAULT : Nat := 500

def RDP_KEEPALIVE_INTERVAL : Nat := 29000

def RDP_MAX_VEC : Nat := 1024

def RDP_ACK_NR_RECV_BEHIND_ALLOWED : Nat := 10

def ETHERNET_MTU : Nat := 1500

def IPV4_HEADER_SIZE : Nat := 20

def UDP_HEADER_SIZE : Nat := 8

def GRE_HEADER_SIZE : Nat := 24

def PPPOE_HEADER_SIZE : Nat := 8

def MPPE_HEADER_SIZE : Nat := 2

def FUDGE_HEADER_SIZE : Nat := 36

def UDP_IPV4_MTU : Nat :=
  ETHERNET_MTU - IPV4_HEADER_SIZE - UDP_HEADER_SIZE - GRE_HEADER_SIZE -
    PPPOE_HEADER_SIZE - MPPE_HEADER_SIZE - FUDGE_HEADER_SIZE

/-- Packet types (rdp.c lines 114-118, from BEP 29). -/
def ST_DATA : Nat := 0

def ST_FIN : Nat := 1

def ST_STATE : Nat := 2

def ST_RESET : Nat := 3

def ST_SYN : Nat := 4

/-- Linux errno values used by the write path. -/
def EAGAIN : Nat := 11

def EINVAL : Nat := 22

/-- `sizeof(struct packet)`: the packed wire header
`u8 versionAndType, u8 reserve, u16 connId, u32 window, u16 seqnr, u16 acknr`
(rdp.c lines 125-133). -/
def packetHeaderSize : Nat := 1 + 1 + 2 + 4 + 2 + 2

/-- `getUdpMtu()` (rdp.c line 322). -/
def getUdpMtu : Nat := UDP_IPV4_MTU

/-- `getMaxPacketPayloadSize()` (rdp.c lines 332-334). -/
def getMaxPacketPayloadSize : Nat := getUdpMtu - packetHeaderSize

/-! ### Packet header nibble accessors (rdp.c lines 224-238)

`versionAndType` is a `uint8_t`; stores truncate mod 256. -/

def packetGetVersion (x : Nat) : Nat := x &&& 0x0f

def packetGetType (x : Nat) : Nat := x >>> 4

def packetSetVersion (x v : Nat) : Nat := ((x &&& 0xf0) ||| (v &&& 0x0f)) % 256

def packetSetType (x t : Nat) : Nat := ((x &&& 0x0f) ||| (t <<< 4)) % 256

/-! ### 16-bit wrap-around comparison (rdp.c lines 788-790) -/

/-- Value of a machine integer reinterpreted as a signed 16-bit
(`int16_t`) quantity. -/
def toInt16 (x : Int) : Int :=
  if x % 65536 < 32768 then x % 65536 else x % 65536 - 65536

/-- `sixteenAfter(a, b)`: the signed 16-bit difference `a - b` is
negative.  The `uint16_t` parameters reduce the arguments mod `2^16`,
which `toInt16` performs. -/
def sixteenAfter (a b : Int) : Bool :=
  toInt16 (toInt16 a - toInt16 b) < 0

/-- The `ack_nr` validity check of `rdpReadPoll` (rdp.c lines 1442-1451):
the incoming packet is dropped when this is `true`.  `c->seqnr` and
`c->queue` are `uint16_t` promoted to `int` in the C expressions, hence
`Int` arguments here. -/
def acknrInvalid (seqnr queue packnr : Int) : Bool :=
  sixteenAfter (seqnr - 1) packnr ||
    sixteenAfter packnr (seqnr - 1 - queue - (RDP_ACK_NR_RECV_BEHIND_ALLOWED : Int))

/-- The range that the specification sentence asserts to be the accepted
one: `ack_nr ∈ [seq_nr - queue - 10, seq_nr - 1]` under 16-bit wrap,
i.e. backward distance from `seq_nr - 1` at most `queue + 9`. -/
def specAcknrValid (seqnr queue packnr : Nat) : Bool :=
  decide ((seqnr + 65536 - 1 - packnr) % 65536 ≤ queue + 9)

/-! ### Ring buffer (rdp.c lines 163-308)

`elements` is total on `Int`; only its values at `[0, mask]` after a
`% (mask+1)` reduction are ever observed, mirroring the C array. -/

structure RBuf (α : Type) where
  mask : Nat
  elements : Int → Option α

/-- `rbufferInit()` (rdp.c lines 241-244): size 64, all slots NULL. -/
def rbufferInit {α : Type} : RBuf α := ⟨63, fun _ => none⟩

/-- `rbufferGet()` (rdp.c lines 246-248): `elements[i & mask]`. -/
def rbufferGet {α : Type} (buf : RBuf α) (i : Int) : Option α :=
  buf.elements (i % ((buf.mask : Int) + 1))

/-- `rbufferPut()` (rdp.c lines 275-277): `elements[i & mask] = data`. -/
def rbufferPut {α : Type} (buf : RBuf α) (i : Int) (v : Option α) : RBuf α :=
  ⟨buf.mask, Function.update buf.elements (i % ((buf.mask : Int) + 1)) v⟩

/-- The `do size *= 2; while (index >= size);` doubling loop of
`rbufferGrow`, with structural fuel.  `growLoop` supplies fuel `index`,
which suffices whenever `0 < size` (the loop doubles `size` each step and
`2^index > index`). -/
def growLoopF : Nat → Nat → Nat → Nat
  | 0, size, _ => size * 2
  | fuel + 1, size, index =>
    if index ≥ size * 2 then growLoopF fuel (size * 2) index else size * 2

def growLoop (size index : Nat) : Nat := growLoopF index size index

/-- `rbufferGrow()` (rdp.c lines 279-301): double the size until it
exceeds `index`, then rehome every stored element: the element reachable
at logical position `item - index + i` keeps that logical position. -/
def rbufferGrow {α : Type} (buf : RBuf α) (item : Int) (index : Nat) : RBuf α :=
  let newSize : Nat := growLoop (buf.mask + 1) index
  let newElements : Int → Option α :=
    (List.range (buf.mask + 1)).foldl
      (fun acc (i : Nat) =>
        Function.update acc ((item - index + (i : Int)) % (newSize : Int))
          (rbufferGet buf (item - index + (i : Int))))
      (fun _ => none)
  ⟨newSize - 1, newElements⟩

/-- `rbufferEnsureSize()` (rdp.c lines 304-308). -/
def rbufferEnsureSize {α : Type} (buf : RBuf α) (item : Int) (index : Nat) : RBuf α :=
  if index > buf.mask then rbufferGrow buf item index else buf

/-! ### Connection state (rdp.c lines 97-105, 171-210) -/

inductive ConnState where
  | CS_UNINITIALIZED
  | CS_SYN_SENT
  | CS_SYN_RECV
  | CS_CONNECTED
  | CS_CONNECTED_FULL
  | CS_FIN_SENT
  | CS_DESTROY
deriving DecidableEq, Repr

open ConnState

/-- A send slot, `struct packetWrap` (rdp.c lines 142-148) together with
the wire-header fields the code stamps into its `data` bytes
(payload bytes elided; `sentTime` of a never-sent slot is modelled 0). -/
structure PacketWrap where
  payload : Nat
  sentTime : Nat
  transmissions : Nat
  needResend : Bool
  ptype : Nat
  connId : Nat
  window : Nat
  pseqnr : Nat
  packnr : Nat
deriving DecidableEq, Repr

/-- The connection record, `struct rdpConn` (rdp.c lines 171-210).
The socket back-reference, peer address and debug fields are elided;
receive slots are modelled by their payload length. -/
structure Conn where
  state : ConnState
  seqnr : Nat
  acknr : Nat
  queue : Nat
  idSeed : Nat
  recvId : Nat
  sendId : Nat
  outbuf : RBuf PacketWrap
  inbuf : RBuf Nat
  flightWindow : Nat
  flightWindowLimit : Nat
  recvWindowPeer : Nat
  recvWindowSelf : Nat
  rtt : Nat
  rttVar : Nat
  nextRetransmitTimeout : Nat
  retransmitTimeout : Nat
  retransmitTicker : Nat
  lastReceivedPacket : Nat
  lastSentPacket : Nat
  needSendAck : Bool
  outOfOrderCnt : Nat
  receivedFin : Bool
  receivedFinCompleted : Bool
  eofseqnr : Nat
  oldestResent : Int

/-- An emitted wire packet header (header fields of `struct packet`,
rdp.c lines 125-133; version is always 1 and elided). -/
structure WirePacket where
  ptype : Nat
  reserve : Nat
  connId : Nat
  window : Nat
  pseqnr : Nat
  packnr : Nat
deriving DecidableEq, Repr

/-! ### Retransmit timeout clamp and RTT estimator -/

/-- `limitedRetransmitTimeout()` (rdp.c lines 338-343). -/
def limitedRetransmitTimeout (t : Nat) : Nat :=
  if 0 < t then
    min RDP_RETRANSMIT_TIMEOUT_MAX (max RDP_RETRANSMIT_TIMEOUT_MIN t)
  else RDP_RETRANSMIT_TIMEOUT_DEFAULT

/-- `ackPacket()` (rdp.c lines 811-848).  `now` is
`c->rdpSocket->mstime`.  All `uint32_t` arithmetic reduces mod `2^32`;
the `int` divisions truncate toward zero (`Int.tdiv`). -/
def ackPacket (c : Conn) (i : Int) (now : Nat) : Conn :=
  match rbufferGet c.outbuf i with
  | none => c
  | some pw =>
    if pw.transmissions = 0 then c
    else
      let c1 : Conn := { c with outbuf := rbufferPut c.outbuf i none }
      let c2 : Conn :=
        if pw.transmissions = 1 then
          let packetRtt : Nat := (((now : Int) - pw.sentTime) % 4294967296).toNat
          let rtt1 : Nat :=
            if c1.rtt = 0 then packetRtt
            else ((((c1.rtt : Int) +
              Int.tdiv ((packetRtt : Int) - c1.rtt) 8)) % 4294967296).toNat
          let rttVar1 : Nat :=
            if c1.rtt = 0 then packetRtt / 2
            else ((((c1.rttVar : Int) +
              Int.tdiv (|(c1.rtt : Int) - packetRtt| - c1.rttVar) 4)) % 4294967296).toNat
          { c1 with
            rtt := rtt1
            rttVar := rttVar1
            nextRetransmitTimeout :=
              limitedRetransmitTimeout ((rtt1 + rttVar1 * 4) % 4294967296) }
        else c1
      if pw.needResend then c2
      else { c2 with
        flightWindow := (((c2.flightWindow : Int) - pw.payload) % 4294967296).toNat }

/-! ### Selective acknowledgement (rdp.c lines 1208-1254) -/

/-- Bit `offset` of the SACK mask bytes:
`mask[offset >> 3] & (1 << (offset & 7))` for `offset ≥ 0`; the C `&&`
short-circuit never reads `mask` at the final `offset = -1` iteration. -/
def sackBit (mask : List Nat) (offset : Int) : Bool :=
  if offset < 0 then false
  else (mask.getD (offset.toNat / 8) 0).testBit (offset.toNat % 8)

/-- One body of the `do { ... } while (--offset >= -1);` loop of
`selectiveAck` at a given `offset`.  `v = startSeqnr + offset` is computed
in `unsigned` arithmetic; all its uses are mod `2^16` or mod the ring
size (both divide `2^32`), so plain `Int` arithmetic is faithful. -/
def selAckBody (c : Conn) (start : Int) (mask : List Nat) (now : Nat)
    (offset : Int) : Conn :=
  if ((c.seqnr : Int) - (start + offset) - 1) % 65536 ≥ ((c.queue : Int) - 1) % 65536 then c
  else
    match rbufferGet c.outbuf (start + offset) with
    | none => c
    | some pw =>
      if pw.transmissions = 0 then c
      else if sackBit mask offset then ackPacket c (start + offset) now
      else c

/-- The `selectiveAck` loop, indexed so that `selAckGo c m` executes the
bodies at offsets `m - 1, m - 2, ..., 0, -1` in that order (matching
`offset = len * 8 - 1` down to `-1` when started at `m = len * 8`). -/
def selAckGo (start : Int) (mask : List Nat) (now : Nat) : Conn → Nat → Conn
  | c, 0 => selAckBody c start mask now (-1)
  | c, m + 1 => selAckGo start mask now (selAckBody c start mask now m) m

/-- `selectiveAck()` (rdp.c lines 1208-1254). -/
def selectiveAck (c : Conn) (start : Int) (mask : List Nat) (len : Nat)
    (now : Nat) : Conn :=
  selAckGo start mask now c (len * 8)

/-! ### Send path (rdp.c lines 725-737, 792-808, 936-1141) -/

/-- `rdpConnFlightWindowFull()` (rdp.c lines 796-808); the
`uint32_t` sum wraps mod `2^32`. -/
def rdpConnFlightWindowFull (c : Conn) : Bool :=
  decide ((c.flightWindow + getMaxPacketPayloadSize) % 4294967296 >
    min c.flightWindowLimit c.recvWindowPeer)

/-- `sendPacketWrap()` (rdp.c lines 725-737) followed by `sendData()`
(line 719): counts the payload into the flight window, clears
`needResend`, stamps the current `acknr` into the packet bytes, records
the send time and transmission count, and updates `lastSentPacket`.
The slot is mutated in place in C; here the updated slot is re-stored at
its ring position `i`. -/
def sendPacketWrap (c : Conn) (i : Int) (pw : PacketWrap) (now : Nat) : Conn :=
  let pw1 : PacketWrap :=
    { pw with needResend := false, packnr := c.acknr, sentTime := now,
              transmissions := pw.transmissions + 1 }
  { c with
    flightWindow := (c.flightWindow + pw.payload) % 4294967296
    outbuf := rbufferPut c.outbuf i (some pw1)
    lastSentPacket := now }

/-- The `for (i = seqnr - queue; i != seqnr; i++)` walk of
`rdpConnFlushPackets` (rdp.c lines 936-949), expressed by the number of
remaining steps (`queue` at the top call) and the step counter `k`.
Returns the connection and whether the walk stopped because the flight
window filled (the C function returning `-1`). -/
def flushGo (now : Nat) : Conn → Nat → Nat → Conn × Bool
  | c, 0, _ => (c, false)
  | c, r + 1, k =>
    let i : Int := (c.seqnr : Int) - c.queue + k
    match rbufferGet c.outbuf i with
    | none => flushGo now c r (k + 1)
    | some pw =>
      if pw.transmissions > 0 ∧ pw.needResend = false then flushGo now c r (k + 1)
      else if rdpConnFlightWindowFull c then (c, true)
      else flushGo now (sendPacketWrap c i pw now) r (k + 1)

/-- `rdpConnFlushPackets()` (rdp.c lines 936-949). -/
def rdpConnFlushPackets (c : Conn) (now : Nat) : Conn × Bool :=
  flushGo now c c.queue 0

/-- A freshly allocated send slot of `buildSendPacket`'s non-coalescing
branch, with the header fields stamped by rdp.c lines 1021-1032
(`sentTime` is uninitialized in C until first send; modelled 0). -/
def freshWrap (c : Conn) (payload ptype : Nat) : PacketWrap :=
  { payload := payload, sentTime := 0, transmissions := 0, needResend := false,
    ptype := ptype, connId := c.sendId, window := c.recvWindowSelf,
    pseqnr := c.seqnr, packnr := c.acknr }

/-- The last enqueued slot after `buildSendPacket`'s piggyback
coalescing (realloc + append, rdp.c lines 974-984 and 1019-1027):
its payload grows by `roundPayload = min(payload + pw.payload, MSS) -
pw.payload` and the header fields are re-stamped. -/
def coalesceWrap (c : Conn) (pw : PacketWrap) (payload ptype : Nat) : PacketWrap :=
  { pw with
    payload := pw.payload + (min (payload + pw.payload) getMaxPacketPayloadSize - pw.payload)
    ptype := ptype
    connId := c.sendId
    window := c.recvWindowSelf
    packnr := c.acknr }

/-- The connection after `buildSendPacket`'s non-coalescing branch
(rdp.c lines 985-994 and 1029-1035): a fresh slot is stored at `seqnr`
(growing the ring if needed) and `seqnr` and `queue` advance. -/
def appendWrap (c : Conn) (payload ptype : Nat) : Conn :=
  { c with
    outbuf := rbufferPut (rbufferEnsureSize c.outbuf c.seqnr c.queue)
      (c.seqnr : Int) (some (freshWrap c payload ptype))
    seqnr := (c.seqnr + 1) % 65536
    queue := c.queue + 1 }

/-- The connection after `buildSendPacket`'s coalescing branch. -/
def coalesceConn (c : Conn) (pw : PacketWrap) (payload ptype : Nat) : Conn :=
  { c with
    outbuf := rbufferPut c.outbuf ((c.seqnr : Int) - 1)
      (some (coalesceWrap c pw payload ptype)) }

/-- The `do { ... } while (payload);` body of `buildSendPacket`
(rdp.c lines 959-1038) with structural fuel; each iteration consumes at
least one byte when `payload > 0`, so fuel `payload + 1` suffices. -/
def buildSendPacketF : Nat → Conn → Nat → Nat → Conn
  | 0, c, _, _ => c
  | fuel + 1, c, payload, ptype =>
    match (if 0 < c.queue then rbufferGet c.outbuf ((c.seqnr : Int) - 1) else none) with
    | some pw =>
      if payload ≠ 0 ∧ pw.transmissions = 0 ∧ pw.payload < getMaxPacketPayloadSize then
        if payload - (min (payload + pw.payload) getMaxPacketPayloadSize - pw.payload) = 0 then
          coalesceConn c pw payload ptype
        else
          buildSendPacketF fuel (coalesceConn c pw payload ptype)
            (payload - (min (payload + pw.payload) getMaxPacketPayloadSize - pw.payload))
            ptype
      else appendWrap c payload ptype
    | none => appendWrap c payload ptype

/-- `buildSendPacket()` (rdp.c lines 951-1039).  The scatter-gather
`memcpy` of payload bytes is elided (slots carry payload sizes). -/
def buildSendPacket (c : Conn) (payload ptype : Nat) : Conn :=
  buildSendPacketF (payload + 1) c payload ptype

/-- The `while (c->queue < RDP_QUEUE_SIZE_MAX - 1)` segmentation loop of
`rdpWriteVec` (rdp.c lines 1113-1125), with structural fuel; each
iteration with a nonzero `validSend` consumes at least one byte and a
zero `validSend` terminates the loop after one more body, so fuel
`total + 2` suffices.  Returns the connection, the remaining `total`,
and `sent`. -/
def writeLoopF : Nat → Conn → Nat → Nat → Nat → Conn × Nat × Nat
  | 0, c, total, sent, _ => (c, total, sent)
  | fuel + 1, c, total, sent, validSend =>
    if c.queue < RDP_QUEUE_SIZE_MAX - 1 then
      if min (total - validSend) getMaxPacketPayloadSize = 0 then
        (buildSendPacket c validSend ST_DATA, total - validSend, sent + validSend)
      else
        writeLoopF fuel (buildSendPacket c validSend ST_DATA) (total - validSend)
          (sent + validSend) (min (total - validSend) getMaxPacketPayloadSize)
    else (c, total, sent)

/-- `rdpWriteVec()` (rdp.c lines 1042-1141).  The vectors are modelled by
their lengths; `now` is the `mstime()` refresh.  Returns the errno-style
result and the updated connection. -/
def rdpWriteVec (c : Conn) (lens : List Nat) (now : Nat) : Except Nat Nat × Conn :=
  if lens.length = 0 then (Except.error EINVAL, c)
  else if lens.length > RDP_MAX_VEC then (Except.error EINVAL, c)
  else
    match c.state with
    | CS_UNINITIALIZED | CS_SYN_RECV | CS_DESTROY | CS_FIN_SENT =>
      (Except.error EINVAL, c)
    | CS_SYN_SENT | CS_CONNECTED_FULL => (Except.error EAGAIN, c)
    | _ =>
      let total : Nat := lens.sum
      if rdpConnFlightWindowFull c then
        (Except.error EAGAIN, { c with state := CS_CONNECTED_FULL })
      else
        let r := writeLoopF (total + 2) c total 0 (min total getMaxPacketPayloadSize)
        let c1 := r.1
        let totalRem := r.2.1
        let sent := r.2.2
        let fr := rdpConnFlushPackets c1 now
        let c2 := if fr.2 then { fr.1 with state := CS_CONNECTED_FULL } else fr.1
        if sent = 0 then
          if totalRem = 0 then (Except.ok 0, c2)
          else (Except.error EAGAIN, c2)
        else (Except.ok sent, c2)

/-! ### ACK generation and keepalive (rdp.c lines 851-916, 1724-1731, 1877-1882) -/

/-- `sendAck()` (rdp.c lines 851-916): emits one `ST_STATE` packet (with
a SACK extension when there are out-of-order holes and the connection is
neither in `CS_SYN_RECV` nor EOF-completed; the mask bytes, which are
only read from `inbuf`, are elided), stamps the current connection
state into the header, clears `needSendAck` and records the send time. -/
def sendAck (c : Conn) (now : Nat) : Conn × WirePacket :=
  let withSack : Bool :=
    c.outOfOrderCnt ≠ 0 && c.state ≠ CS_SYN_RECV && !c.receivedFinCompleted
  let pkt : WirePacket :=
    { ptype := ST_STATE, reserve := if withSack then 1 else 0,
      connId := c.sendId, window := c.recvWindowSelf,
      pseqnr := c.seqnr, packnr := c.acknr }
  ({ c with needSendAck := false, lastSentPacket := now }, pkt)

/-- `rdpConnKeepAlive()` (rdp.c lines 1724-1731): decrement the
`uint16_t` `acknr`, send an ACK, restore `acknr`. -/
def rdpConnKeepAlive (c : Conn) (now : Nat) : Conn × WirePacket :=
  let c1 : Conn := { c with acknr := (c.acknr + 65535) % 65536 }
  let r := sendAck c1 now
  ({ r.1 with acknr := (r.1.acknr + 1) % 65536 }, r.2)

/-- The keepalive trigger inside `rdpConnCheck()` (rdp.c lines
1877-1882): on a connected connection idle for
`RDP_KEEPALIVE_INTERVAL`, emit the keepalive probe. -/
def rdpConnCheckKeepAlive (c : Conn) (now : Nat) : Conn × List WirePacket :=
  if (c.state = CS_CONNECTED ∨ c.state = CS_CONNECTED_FULL) ∧
      now ≥ c.lastSentPacket + RDP_KEEPALIVE_INTERVAL then
    let r := rdpConnKeepAlive c now
    (r.1, [r.2])
  else (c, [])

/-! ### Connection initiation (rdp.c lines 626-655, 740-786) -/

/-- The identifier assignment of `rdpConnInit()` (rdp.c lines 629-642).
`seed` is the accepted value of the `rand() & 0xffff` re-roll loop (the
registry collision check is elided); the `uint16_t` additions wrap. -/
def rdpConnInitIds (generateSeed : Bool) (idSeed recvId sendId seed : Nat) :
    Nat × Nat × Nat :=
  if generateSeed then (seed, (recvId + seed) % 65536, (sendId + seed) % 65536)
  else (idSeed, recvId, sendId)

/-- `rdpConnect()` (rdp.c lines 740-786): on an `CS_UNINITIALIZED`
connection, assign ids via `rdpConnInit(c, addr, addrlen, 1, 0, 0, 1)`,
enter `CS_SYN_SENT`, arm the retransmit timer, enqueue a zero-payload
`ST_SYN` slot whose `connId` is `recvId`, and send it.  Returns `none`
(the C `-1`) when the state is wrong, otherwise the connection and the
emitted slot. -/
def rdpConnect (c : Conn) (seed : Nat) (now : Nat) : Option (Conn × PacketWrap) :=
  if c.state ≠ CS_UNINITIALIZED then none
  else
    let ids := rdpConnInitIds true 0 0 1 seed
    let c1 : Conn :=
      { c with
        idSeed := ids.1
        recvId := ids.2.1
        sendId := ids.2.2
        lastReceivedPacket := now
        state := CS_SYN_SENT
        retransmitTimeout := c.nextRetransmitTimeout
        retransmitTicker := now + c.nextRetransmitTimeout }
    let pw : PacketWrap :=
      { payload := 0, sentTime := 0, transmissions := 0, needResend := false,
        ptype := ST_SYN, connId := c1.recvId, window := c1.recvWindowSelf,
        pseqnr := c1.seqnr, packnr := 0 }
    let c2 : Conn :=
      { c1 with
        outbuf := rbufferPut (rbufferEnsureSize c1.outbuf c1.seqnr c1.queue)
          (c1.seqnr : Int) (some pw)
        seqnr := (c1.seqnr + 1) % 65536
        queue := c1.queue + 1 }
    let c3 := sendPacketWrap c2 (c1.seqnr : Int) pw now
    some (c3, { pw with packnr := c2.acknr, sentTime := now, transmissions := 1,
                        needResend := false })

/-- The identifier fields observable after `rdpConnect`: the connection's
`idSeed`, `recvId`, `sendId` and the emitted SYN's `connId` and type. -/
def connectIds (r : Option (Conn × PacketWrap)) : Option (Nat × Nat × Nat × Nat × Nat) :=
  match r with
  | none => none
  | some (c, pkt) => some (c.idSeed, c.recvId, c.sendId, pkt.connId, pkt.ptype)

/-! ### Concrete connections used to instantiate the theorems -/

/-- A freshly created connection as `rdpConnCreate()` builds it
(rdp.c lines 658-708), with the random `seqnr` fixed to 0. -/
def connEx : Conn :=
  { state := CS_UNINITIALIZED, seqnr := 0, acknr := 0, queue := 0,
    idSeed := 0, recvId := 0, sendId := 0,
    outbuf := rbufferInit, inbuf := rbufferInit,
    flightWindow := 0, flightWindowLimit := 1048576, recvWindowPeer := 1048576,
    recvWindowSelf := 4194304, rtt := 0, rttVar := 0,
    nextRetransmitTimeout := 500, retransmitTimeout := 0, retransmitTicker := 0,
    lastReceivedPacket := 0, lastSentPacket := 0, needSendAck := false,
    outOfOrderCnt := 0, receivedFin := false, receivedFinCompleted := false,
    eofseqnr := 0, oldestResent := -1 }

/-- A sent-once send slot registered at sequence `s`. -/
def pwSent (s : Nat) : PacketWrap :=
  { payload := 5, sentTime := 3, transmissions := 1, needResend := false,
    ptype := ST_DATA, connId := 1, window := 9, pseqnr := s, packnr := 0 }

/-- A connected connection with two unacked slots at sequences 8 and 9
(`seqnr = 10`, `queue = 2`). -/
def connSack : Conn :=
  { connEx with
    state := CS_CONNECTED
    seqnr := 10
    queue := 2
    outbuf := rbufferPut (rbufferPut rbufferInit 8 (some (pwSent 8))) 9 (some (pwSent 9)) }

/-! ## Claim theorems -/

set_option maxRecDepth 4096 in
/-- C10: the two nibbles of `versionAndType` are independent: for any
header byte `x < 256`, `packetSetVersion` with `v < 16` makes
`packetGetVersion` return `v` while `packetGetType` is unchanged, and
symmetrically `packetSetType` with `t < 16` makes `packetGetType` return
`t` while `packetGetVersion` is unchanged. -/
theorem packet_nibble_independence :
    (∀ x < 256, ∀ v < 16,
      packetGetVersion (packetSetVersion x v) = v ∧
      packetGetType (packetSetVersion x v) = packetGetType x) ∧
    (∀ x < 256, ∀ t < 16,
      packetGetType (packetSetType x t) = t ∧
      packetGetVersion (packetSetType x t) = packetGetVersion x) := by
  constructor <;> decide

/-- C10 witness: the theorem instantiated at the header byte `0xa7`. -/
theorem packet_nibble_independence_witness :
    (packetGetVersion (packetSetVersion 0xa7 5) = 5 ∧
      packetGetType (packetSetVersion 0xa7 5) = packetGetType 0xa7) ∧
    (packetGetType (packetSetType 0xa7 3) = 3 ∧
      packetGetVersion (packetSetType 0xa7 3) = packetGetVersion 0xa7) :=
  ⟨packet_nibble_independence.1 0xa7 (by decide) 5 (by decide),
   packet_nibble_independence.2 0xa7 (by decide) 3 (by decide)⟩

/-- C3 counterexample: with `seqnr = 100`, `queue = 0`, the packet
`ack_nr = 89 = seqnr - queue - 11` lies outside the claimed valid range
`[seqnr - queue - 10, seqnr - 1]` (so the claim says it is dropped), yet
the code's validity check accepts it. -/
theorem acknr_range_counterexample :
    specAcknrValid 100 0 89 = false ∧ acknrInvalid 100 0 89 = false := by
  constructor <;> decide

/-- C3 (amended): a non-SYN packet passes the `ack_nr` validity check of
`rdpReadPoll` if and only if the backward 16-bit distance from
`seqnr - 1` to its `ack_nr` is at most `queue + 10`, i.e. `ack_nr` lies
in `[seqnr - queue - 11, seqnr - 1]` under 16-bit wrap-around — one more
than the claimed 10-packet tolerance. -/
theorem acknr_range (seqnr queue packnr : Nat)
    (hs : seqnr < 65536) (hp : packnr < 65536) (hq : queue ≤ 16383) :
    acknrInvalid seqnr queue packnr = false ↔
      (seqnr + 65536 - 1 - packnr) % 65536 ≤ queue + RDP_ACK_NR_RECV_BEHIND_ALLOWED := by
  unfold acknrInvalid sixteenAfter toInt16 RDP_ACK_NR_RECV_BEHIND_ALLOWED
  simp only [Bool.or_eq_false_iff, decide_eq_false_iff_not, not_lt]
  constructor
  · rintro ⟨h1, h2⟩
    split_ifs at h1 h2 <;> omega
  · intro h
    constructor <;> [skip; skip] <;> split_ifs <;> omega

/-- C3 witness: the amended theorem at `seqnr = 100`, `queue = 0`,
`ack_nr = 99`. -/
theorem acknr_range_witness :
    acknrInvalid 100 0 99 = false ↔
      (100 + 65536 - 1 - 99) % 65536 ≤ 0 + RDP_ACK_NR_RECV_BEHIND_ALLOWED :=
  acknr_range 100 0 99 (by decide) (by decide) (by decide)

/-- The retransmit-timeout clamp always lands in
`[RDP_RETRANSMIT_TIMEOUT_MIN, RDP_RETRANSMIT_TIMEOUT_MAX]`. -/
theorem limitedRetransmitTimeout_bounds (t : Nat) :
    RDP_RETRANSMIT_TIMEOUT_MIN ≤ limitedRetransmitTimeout t ∧
      limitedRetransmitTimeout t ≤ RDP_RETRANSMIT_TIMEOUT_MAX := by
  unfold limitedRetransmitTimeout RDP_RETRANSMIT_TIMEOUT_MIN
    RDP_RETRANSMIT_TIMEOUT_MAX RDP_RETRANSMIT_TIMEOUT_DEFAULT
  split <;> omega

/-- C6: after `ackPacket` removes a slot whose transmission count is 1
(an RTT sample under Karn's rule), the connection's
`nextRetransmitTimeout` lies in `[200 ms, 1000 ms]`. -/
theorem ackPacket_rto_bounds (c : Conn) (i : Int) (now : Nat) (pw : PacketWrap)
    (hget : rbufferGet c.outbuf i = some pw) (ht : pw.transmissions = 1) :
    RDP_RETRANSMIT_TIMEOUT_MIN ≤ (ackPacket c i now).nextRetransmitTimeout ∧
      (ackPacket c i now).nextRetransmitTimeout ≤ RDP_RETRANSMIT_TIMEOUT_MAX := by
  unfold ackPacket
  rw [hget]
  simp only [ht]
  norm_num
  split <;> exact limitedRetransmitTimeout_bounds _

/-- C6 witness: the theorem at a connection holding one once-sent slot;
the sample 350 ms yields `rtt = 350`, `rttVar = 175`, clamped RTO
1000 ms. -/
theorem ackPacket_rto_bounds_witness :
    RDP_RETRANSMIT_TIMEOUT_MIN ≤
      (ackPacket { connEx with outbuf := rbufferPut rbufferInit 0 (some (pwSent 0)) } 0 353).nextRetransmitTimeout ∧
    (ackPacket { connEx with outbuf := rbufferPut rbufferInit 0 (some (pwSent 0)) } 0 353).nextRetransmitTimeout ≤
      RDP_RETRANSMIT_TIMEOUT_MAX :=
  ackPacket_rto_bounds _ 0 353 (pwSent 0) rfl rfl

/-- C5: for a non-null connection and a non-empty vector list of at most
`RDP_MAX_VEC` entries, `rdpWriteVec` fails with `EAGAIN` in
`CS_SYN_SENT` and `CS_CONNECTED_FULL`, fails with `EINVAL` in
`CS_UNINITIALIZED`, `CS_SYN_RECV`, `CS_FIN_SENT` and `CS_DESTROY`, and
only in `CS_CONNECTED` proceeds to enqueue (in every other state the
queue and sequence number are untouched). -/
theorem writeVec_state_validation (c : Conn) (lens : List Nat) (now : Nat)
    (h1 : lens ≠ []) (h2 : lens.length ≤ RDP_MAX_VEC) :
    (c.state = CS_SYN_SENT ∨ c.state = CS_CONNECTED_FULL →
        rdpWriteVec c lens now = (Except.error EAGAIN, c)) ∧
    (c.state = CS_UNINITIALIZED ∨ c.state = CS_SYN_RECV ∨
        c.state = CS_FIN_SENT ∨ c.state = CS_DESTROY →
        rdpWriteVec c lens now = (Except.error EINVAL, c)) ∧
    (c.state ≠ CS_CONNECTED →
        (rdpWriteVec c lens now).2.queue = c.queue ∧
        (rdpWriteVec c lens now).2.seqnr = c.seqnr) := by
  have hl : ¬ lens.length = 0 := by simpa using h1
  have hl2 : ¬ lens.length > RDP_MAX_VEC := by omega
  unfold rdpWriteVec
  rw [if_neg hl, if_neg hl2]
  cases hc : c.state <;> simp [hc]

/-- C5 witness: the theorem at a `CS_SYN_SENT` connection with one
vector. -/
theorem writeVec_state_validation_witness :
    rdpWriteVec { connEx with state := CS_SYN_SENT } [3] 0 =
      (Except.error EAGAIN, { connEx with state := CS_SYN_SENT }) ∧
    rdpWriteVec { connEx with state := CS_DESTROY } [3] 0 =
      (Except.error EINVAL, { connEx with state := CS_DESTROY }) :=
  ⟨(writeVec_state_validation { connEx with state := CS_SYN_SENT } [3] 0
      (by decide) (by decide)).1 (Or.inl rfl),
   (writeVec_state_validation { connEx with state := CS_DESTROY } [3] 0
      (by decide) (by decide)).2.1 (Or.inr (Or.inr (Or.inr rfl)))⟩

/-- C2 counterexample: `rdpConnect` on an uninitialized connection with
`id_seed = 5` yields `recv_id = 5 = id_seed` and
`send_id = 6 = id_seed + 1` (and the SYN carries
`conn_id = recv_id = 5`), not the claimed `recv_id = id_seed + 1 = 6`
and `send_id = id_seed = 5`. -/
theorem connect_ids_counterexample :
    connectIds (rdpConnect connEx 5 0) = some (5, 5, 6, 5, ST_SYN) ∧
    (some (5, 5, 6, 5, ST_SYN) : Option (Nat × Nat × Nat × Nat × Nat)) ≠
      some (5, 6, 5, 6, ST_SYN) := by
  exact ⟨rfl, by decide⟩

/-- C2 (amended): for every connection on which the initiator calls
`rdpConnect` in state `CS_UNINITIALIZED`, after the random 16-bit
`id_seed` is chosen the connection has `recv_id = id_seed` and
`send_id = (id_seed + 1) mod 2^16`, and the emitted SYN packet carries
`conn_id = recv_id` with type `ST_SYN`. -/
theorem connect_ids (c : Conn) (seed now : Nat)
    (hs : c.state = CS_UNINITIALIZED) (hseed : seed < 65536) :
    connectIds (rdpConnect c seed now) =
      some (seed, seed, (seed + 1) % 65536, seed, ST_SYN) := by
  unfold rdpConnect rdpConnInitIds connectIds
  rw [if_neg (by simp [hs])]
  simp only [if_pos rfl]
  simp [sendPacketWrap]
  omega

/-- C2 witness: the amended theorem at `connEx` with seed 5. -/
theorem connect_ids_witness :
    connectIds (rdpConnect connEx 5 0) = some (5, 5, (5 + 1) % 65536, 5, ST_SYN) :=
  connect_ids connEx 5 0 rfl (by decide)

/-- C8: on a `CS_CONNECTED`/`CS_CONNECTED_FULL` connection idle for at
least `RDP_KEEPALIVE_INTERVAL` (29 000 ms), the periodic check emits
exactly one `ST_STATE` packet whose `acknr` field is the connection's
`acknr` minus one (mod 2^16), and afterwards the connection equals the
original with only `needSendAck` cleared and `lastSentPacket` updated —
in particular the stored `acknr` is unchanged. -/
theorem keepalive_frame (c : Conn) (now : Nat)
    (hstate : c.state = CS_CONNECTED ∨ c.state = CS_CONNECTED_FULL)
    (hidle : c.lastSentPacket + RDP_KEEPALIVE_INTERVAL ≤ now)
    (hack : c.acknr < 65536) :
    (rdpConnCheckKeepAlive c now).1 =
      { c with needSendAck := false, lastSentPacket := now } ∧
    (rdpConnCheckKeepAlive c now).2.map WirePacket.ptype = [ST_STATE] ∧
    (rdpConnCheckKeepAlive c now).2.map WirePacket.packnr =
      [(c.acknr + 65535) % 65536] := by
  unfold rdpConnCheckKeepAlive rdpConnKeepAlive sendAck
  rw [if_pos ⟨hstate, hidle⟩]
  refine ⟨?_, rfl, rfl⟩
  have hrt : ((c.acknr + 65535) % 65536 + 1) % 65536 = c.acknr := by omega
  cases c
  simp_all

/-- C8 witness: the theorem at a connected connection with `acknr = 7`,
idle since time 0, checked at time 29 000. -/
theorem keepalive_frame_witness :
    (rdpConnCheckKeepAlive { connEx with state := CS_CONNECTED, acknr := 7 } 29000).1 =
      { ({ connEx with state := CS_CONNECTED, acknr := 7 } : Conn) with
        needSendAck := false, lastSentPacket := 29000 } ∧
    (rdpConnCheckKeepAlive { connEx with state := CS_CONNECTED, acknr := 7 } 29000).2.map
        WirePacket.ptype = [ST_STATE] ∧
    (rdpConnCheckKeepAlive { connEx with state := CS_CONNECTED, acknr := 7 } 29000).2.map
        WirePacket.packnr = [(7 + 65535) % 65536] :=
  keepalive_frame { connEx with state := CS_CONNECTED, acknr := 7 } 29000
    (Or.inl rfl) (by decide) (by decide)

/-- Helper: the fueled doubling loop computes the least multiple
`size * 2^(k+1)` that exceeds `index`, whenever the fuel suffices. -/
theorem growLoopF_spec (fuel : Nat) : ∀ size index : Nat, 0 < size →
    index < size * 2 ^ fuel →
    ∃ k, growLoopF fuel size index = size * 2 ^ (k + 1) ∧
      index < size * 2 ^ (k + 1) ∧
      ∀ m : Nat, index < size * 2 ^ (m + 1) →
        size * 2 ^ (k + 1) ≤ size * 2 ^ (m + 1) := by
  induction fuel with
  | zero =>
    intro size index h0 hf
    simp only [pow_zero, mul_one] at hf
    refine ⟨0, rfl, by simp [pow_one]; omega, ?_⟩
    intro m _
    have h2 : (2 : Nat) ^ 1 ≤ 2 ^ (m + 1) := Nat.pow_le_pow_right (by omega) (by omega)
    exact Nat.mul_le_mul_left size h2
  | succ fuel ih =>
    intro size index h0 hf
    simp only [growLoopF]
    split
    · -- index ≥ size * 2: recurse with doubled size
      rename_i hge
      have hf2 : index < size * 2 * 2 ^ fuel := by
        have : size * 2 ^ (fuel + 1) = size * 2 * 2 ^ fuel := by ring
        omega
      obtain ⟨k, hk, hb, hmin⟩ := ih (size * 2) index (by omega) hf2
      refine ⟨k + 1, ?_, ?_, ?_⟩
      · rw [hk]; ring
      · have : size * 2 * 2 ^ (k + 1) = size * 2 ^ (k + 1 + 1) := by ring
        omega
      · intro m hm
        match m with
        | 0 =>
          have h1 : size * 2 ^ (0 + 1) = size * 2 := by ring
          omega
        | m' + 1 =>
          have hm2 : index < size * 2 * 2 ^ (m' + 1) := by
            have : size * 2 ^ (m' + 1 + 1) = size * 2 * 2 ^ (m' + 1) := by ring
            omega
          have := hmin m' hm2
          have e1 : size * 2 * 2 ^ (k + 1) = size * 2 ^ (k + 1 + 1) := by ring
          have e2 : size * 2 * 2 ^ (m' + 1) = size * 2 ^ (m' + 1 + 1) := by ring
          omega
    · -- index < size * 2: one doubling suffices
      rename_i hlt
      refine ⟨0, rfl, by simp [pow_one]; omega, ?_⟩
      intro m _
      have h2 : (2 : Nat) ^ 1 ≤ 2 ^ (m + 1) := Nat.pow_le_pow_right (by omega) (by omega)
      exact Nat.mul_le_mul_left size h2

/-- Helper: specification of `growLoop` (fuel `index` always suffices). -/
theorem growLoop_spec (size index : Nat) (h0 : 0 < size) :
    ∃ k, growLoop size index = size * 2 ^ (k + 1) ∧
      index < size * 2 ^ (k + 1) ∧
      ∀ m : Nat, index < size * 2 ^ (m + 1) →
        size * 2 ^ (k + 1) ≤ size * 2 ^ (m + 1) := by
  refine growLoopF_spec index size index h0 ?_
  have h1 : index < 2 ^ index := Nat.lt_two_pow index
  have h2 : 2 ^ index ≤ size * 2 ^ index := Nat.le_mul_of_pos_left _ h0
  omega

/-- Helper: a fold of `Function.update`s leaves positions outside the
written keys untouched. -/
theorem foldlUpdate_not_mem {α : Type} (key : Nat → Int) (val : Nat → Option α) :
    ∀ (l : List Nat) (base : Int → Option α) (x : Int),
      (∀ i ∈ l, key i ≠ x) →
      (l.foldl (fun acc i => Function.update acc (key i) (val i)) base) x = base x := by
  intro l
  induction l with
  | nil => intro base x _; rfl
  | cons a t ih =>
    intro base x h
    simp only [List.foldl_cons]
    rw [ih _ x fun i hi => h i (List.mem_cons_of_mem a hi)]
    exact Function.update_noteq (h a (List.mem_cons_self a t)).symm _ _

/-- Helper: a fold of `Function.update`s over pairwise-distinct keys
stores each written value at its key. -/
theorem foldlUpdate_mem {α : Type} (key : Nat → Int) (val : Nat → Option α) :
    ∀ (l : List Nat) (base : Int → Option α) (i : Nat),
      i ∈ l → l.Nodup → (∀ j ∈ l, key j = key i → j = i) →
      (l.foldl (fun acc i => Function.update acc (key i) (val i)) base) (key i) = val i := by
  intro l
  induction l with
  | nil => intro _ i h; cases h
  | cons a t ih =>
    intro base i hmem hnd hinj
    obtain ⟨hna, hndt⟩ := List.nodup_cons.mp hnd
    simp only [List.foldl_cons]
    rcases List.mem_cons.mp hmem with rfl | hmem2
    · rw [foldlUpdate_not_mem key val t _ (key i) ?_]
      · exact Function.update_same _ _ _
      · intro j hj hkey
        exact absurd (hinj j (List.mem_cons_of_mem _ hj) hkey ▸ hj) hna
    · exact ih _ i hmem2 hndt fun j hj hk => hinj j (List.mem_cons_of_mem _ hj) hk

/-- C7: growing a power-of-two ring buffer at pivot `item`, offset
`index > mask`, (a) produces the smallest power-of-two multiple
`(mask+1) * 2^(k+1)` of the old size that exceeds `index`, (b) preserves
the element readable at every logical position `item - index + i` for
`i ∈ [0, mask]`, and (c) those logical positions cover every old slot,
so no stored element is lost. -/
theorem rbufferGrow_spec {α : Type} (buf : RBuf α) (item : Int) (index : Nat)
    (a : Nat) (hpow : buf.mask + 1 = 2 ^ a) (hidx : buf.mask < index) :
    (∃ k, (rbufferGrow buf item index).mask + 1 = (buf.mask + 1) * 2 ^ (k + 1) ∧
        index < (rbufferGrow buf item index).mask + 1 ∧
        ∀ m : Nat, index < (buf.mask + 1) * 2 ^ (m + 1) →
          (rbufferGrow buf item index).mask + 1 ≤ (buf.mask + 1) * 2 ^ (m + 1)) ∧
    (∀ i : Nat, i ≤ buf.mask →
        rbufferGet (rbufferGrow buf item index) (item - index + i) =
          rbufferGet buf (item - index + i)) ∧
    (∀ j : Int, 0 ≤ j → j < (buf.mask : Int) + 1 →
        ∃ i : Nat, i ≤ buf.mask ∧ (item - index + i) % ((buf.mask : Int) + 1) = j) := by
  obtain ⟨k, hk, hb, hmin⟩ := growLoop_spec (buf.mask + 1) index (Nat.succ_pos _)
  have hNge : buf.mask + 1 ≤ growLoop (buf.mask + 1) index := by
    have h2 : (1 : Nat) ≤ 2 ^ (k + 1) := Nat.one_le_two_pow
    have := Nat.mul_le_mul_left (buf.mask + 1) h2
    omega
  have hN1 : 1 ≤ growLoop (buf.mask + 1) index := by omega
  have hmask : (rbufferGrow buf item index).mask = growLoop (buf.mask + 1) index - 1 := rfl
  refine ⟨⟨k, by omega, by omega, fun m hm => by have := hmin m hm; omega⟩, ?_, ?_⟩
  · -- (b) logical positions are preserved
    intro i hi
    have hcast : (((rbufferGrow buf item index).mask : Int) + 1) =
        ((growLoop (buf.mask + 1) index : Nat) : Int) := by
      rw [hmask]; omega
    show (rbufferGrow buf item index).elements
        ((item - index + i) % (((rbufferGrow buf item index).mask : Int) + 1)) = _
    rw [hcast]
    have helem : (rbufferGrow buf item index).elements =
        (List.range (buf.mask + 1)).foldl
          (fun acc (j : Nat) => Function.update acc
            ((item - index + (j : Int)) % ((growLoop (buf.mask + 1) index : Nat) : Int))
            (rbufferGet buf (item - index + (j : Int))))
          (fun _ => none) := rfl
    rw [helem]
    have hmem : i ∈ List.range (buf.mask + 1) := List.mem_range.mpr (by omega)
    exact foldlUpdate_mem
      (fun j => (item - index + (j : Int)) % ((growLoop (buf.mask + 1) index : Nat) : Int))
      (fun j => rbufferGet buf (item - index + (j : Int)))
      (List.range (buf.mask + 1)) (fun _ => none) i hmem (List.nodup_range _)
      (by
        intro j hj hkey
        have hjlt : j < buf.mask + 1 := List.mem_range.mp hj
        have hdvd : ((growLoop (buf.mask + 1) index : Nat) : Int) ∣
            (item - index + i) - (item - index + j) :=
          Int.ModEq.dvd hkey
        have hdvd2 : ((growLoop (buf.mask + 1) index : Nat) : Int) ∣ ((i : Int) - j) := by
          have he : (item - index + i) - (item - index + j) = (i : Int) - j := by ring
          rwa [he] at hdvd
        have hzero : ((i : Int) - j) = 0 := by
          refine Int.eq_zero_of_abs_lt_dvd hdvd2 ?_
          rw [abs_lt]
          constructor <;> omega
        omega)
  · -- (c) every old slot is reachable from a preserved logical position
    intro j h0j hjlt
    have hSpos : (0 : Int) < (buf.mask : Int) + 1 := by omega
    refine ⟨((j - (item - index)) % ((buf.mask : Int) + 1)).toNat, ?_, ?_⟩
    · have hlt : (j - (item - index)) % ((buf.mask : Int) + 1) < (buf.mask : Int) + 1 :=
        Int.emod_lt_of_pos (j - (item - index)) hSpos
      have hge : 0 ≤ (j - (item - index)) % ((buf.mask : Int) + 1) :=
        Int.emod_nonneg (j - (item - index)) (by omega)
      omega
    · have hnn : 0 ≤ (j - (item - index)) % ((buf.mask : Int) + 1) :=
        Int.emod_nonneg _ (by omega)
      rw [Int.toNat_of_nonneg hnn]
      rw [Int.add_emod (item - index), Int.emod_emod_of_dvd _ dvd_rfl, ← Int.add_emod]
      have : item - index + (j - (item - index)) = j := by ring
      rw [this]
      exact Int.emod_eq_of_lt h0j hjlt

/-- A 64-slot buffer holding one element at slot 6, used to instantiate
the grow theorem. -/
def bufW : RBuf Nat := rbufferPut rbufferInit 6 (some 42)

/-- C7 witness: the theorem at `bufW` (size 64) grown to cover offset
100 around pivot 5: the element at logical position `5 - 100 + 6` is
preserved and old slot 2 is covered by some preserved position. -/
theorem rbufferGrow_spec_witness :
    rbufferGet (rbufferGrow bufW 5 100) (5 - 100 + (6 : Nat)) =
      rbufferGet bufW (5 - 100 + (6 : Nat)) ∧
    (∃ i : Nat, i ≤ bufW.mask ∧
      (5 - 100 + (i : Int)) % ((bufW.mask : Int) + 1) = 2) :=
  ⟨(rbufferGrow_spec bufW 5 100 6 (by decide) (by decide)).2.1 6 (by decide),
   (rbufferGrow_spec bufW 5 100 6 (by decide) (by decide)).2.2 2 (by decide) (by decide)⟩

/-! ### Ring-buffer access lemmas -/

theorem rbufferGet_put {α : Type} (buf : RBuf α) (i x : Int) (v : Option α) :
    rbufferGet (rbufferPut buf i v) x =
      if x % ((buf.mask : Int) + 1) = i % ((buf.mask : Int) + 1) then v
      else rbufferGet buf x := by
  unfold rbufferGet rbufferPut
  simp only [Function.update_apply]

theorem rbufferGet_put_self {α : Type} (buf : RBuf α) (i : Int) (v : Option α) :
    rbufferGet (rbufferPut buf i v) i = v := by
  rw [rbufferGet_put]
  simp

theorem rbufferGet_congr {α : Type} (buf : RBuf α) (x y : Int)
    (h : x % ((buf.mask : Int) + 1) = y % ((buf.mask : Int) + 1)) :
    rbufferGet buf x = rbufferGet buf y := by
  unfold rbufferGet
  rw [h]

theorem rbufferPut_mask {α : Type} (buf : RBuf α) (i : Int) (v : Option α) :
    (rbufferPut buf i v).mask = buf.mask := rfl

/-- Any slot of a grown buffer is either empty or a slot of the old
buffer. -/
theorem foldlUpdate_cases {α : Type} (key : Nat → Int) (val : Nat → Option α) :
    ∀ (l : List Nat) (base : Int → Option α) (x : Int),
      (l.foldl (fun acc i => Function.update acc (key i) (val i)) base) x = base x ∨
      ∃ i ∈ l, (l.foldl (fun acc i => Function.update acc (key i) (val i)) base) x = val i := by
  intro l
  induction l with
  | nil => intro base x; exact Or.inl rfl
  | cons a t ih =>
    intro base x
    simp only [List.foldl_cons]
    rcases ih (Function.update base (key a) (val a)) x with h | ⟨i, hi, h⟩
    · rw [h, Function.update_apply]
      split
      · exact Or.inr ⟨a, List.mem_cons_self a t, rfl⟩
      · exact Or.inl rfl
    · exact Or.inr ⟨i, List.mem_cons_of_mem a hi, h⟩

theorem rbufferGrow_get_cases {α : Type} (buf : RBuf α) (item : Int) (index : Nat)
    (x : Int) :
    rbufferGet (rbufferGrow buf item index) x = none ∨
    ∃ y : Int, rbufferGet (rbufferGrow buf item index) x = rbufferGet buf y := by
  show (rbufferGrow buf item index).elements _ = none ∨ _
  have helem : (rbufferGrow buf item index).elements =
      (List.range (buf.mask + 1)).foldl
        (fun acc (j : Nat) => Function.update acc
          ((item - index + (j : Int)) % ((growLoop (buf.mask + 1) index : Nat) : Int))
          (rbufferGet buf (item - index + (j : Int))))
        (fun _ => none) := rfl
  rw [helem]
  rcases foldlUpdate_cases
      (fun j => (item - index + (j : Int)) % ((growLoop (buf.mask + 1) index : Nat) : Int))
      (fun j => rbufferGet buf (item - index + (j : Int)))
      (List.range (buf.mask + 1)) (fun _ => none)
      (x % (((rbufferGrow buf item index).mask : Int) + 1)) with h | ⟨i, _, h⟩
  · exact Or.inl h
  · exact Or.inr ⟨item - index + (i : Int), h⟩

theorem rbufferEnsureSize_get_cases {α : Type} (buf : RBuf α) (item : Int)
    (index : Nat) (x : Int) :
    rbufferGet (rbufferEnsureSize buf item index) x = none ∨
    ∃ y : Int, rbufferGet (rbufferEnsureSize buf item index) x = rbufferGet buf y := by
  unfold rbufferEnsureSize
  split
  · exact rbufferGrow_get_cases buf item index x
  · exact Or.inr ⟨x, rfl⟩

/-- Growing for an offset `index ≤ 16382` keeps the size a power of two
of at most `2^16`, and makes it exceed `index`. -/
theorem rbufferEnsureSize_inv {α : Type} (buf : RBuf α) (item : Int) (index : Nat)
    (hidx : index ≤ 16382) (ha : ∃ a, buf.mask + 1 = 2 ^ a)
    (hle : buf.mask + 1 ≤ 65536) :
    (∃ b, (rbufferEnsureSize buf item index).mask + 1 = 2 ^ b) ∧
    (rbufferEnsureSize buf item index).mask + 1 ≤ 65536 ∧
    index ≤ (rbufferEnsureSize buf item index).mask := by
  obtain ⟨a, hpow⟩ := ha
  unfold rbufferEnsureSize
  split
  · rename_i hgrow
    obtain ⟨k, hk, hb, hmin⟩ := growLoop_spec (buf.mask + 1) index (Nat.succ_pos _)
    have hmask : (rbufferGrow buf item index).mask = growLoop (buf.mask + 1) index - 1 := rfl
    have hN1 : 1 ≤ growLoop (buf.mask + 1) index := by
      have h2 : (1 : Nat) ≤ 2 ^ (k + 1) := Nat.one_le_two_pow
      have := Nat.mul_le_mul_left (buf.mask + 1) h2
      omega
    have hsz : (rbufferGrow buf item index).mask + 1 = growLoop (buf.mask + 1) index := by
      omega
    have hax : a ≤ 13 := by
      by_contra hcon
      have h14 : (2 : Nat) ^ 14 ≤ 2 ^ a := Nat.pow_le_pow_right (by omega) (by omega)
      have : buf.mask + 1 ≤ index := by omega
      have h14v : (2 : Nat) ^ 14 = 16384 := by norm_num
      omega
    have hcap : growLoop (buf.mask + 1) index ≤ 16384 := by
      have hub : index < (buf.mask + 1) * 2 ^ (13 - a + 1) := by
        have : (buf.mask + 1) * 2 ^ (13 - a + 1) = 2 ^ 14 := by
          rw [hpow, ← pow_add]
          congr 1
          omega
        have h14v : (2 : Nat) ^ 14 = 16384 := by norm_num
        omega
      have := hmin (13 - a) hub
      have : (buf.mask + 1) * 2 ^ (13 - a + 1) = 2 ^ 14 := by
        rw [hpow, ← pow_add]
        congr 1
        omega
      have h14v : (2 : Nat) ^ 14 = 16384 := by norm_num
      omega
    refine ⟨⟨a + (k + 1), ?_⟩, by omega, by omega⟩
    rw [hsz, hk, hpow, ← pow_add]
  · rename_i hnogrow
    exact ⟨⟨a, hpow⟩, hle, by omega⟩

/-- A power-of-two size of at most `2^16` divides `2^16`. -/
theorem size_dvd_65536 (n : Nat) (ha : ∃ b, n = 2 ^ b) (hle : n ≤ 65536) :
    (n : Int) ∣ 65536 := by
  obtain ⟨b, rfl⟩ := ha
  have hb : b ≤ 16 := by
    by_contra hcon
    have : (2 : Nat) ^ 17 ≤ 2 ^ b := Nat.pow_le_pow_right (by omega) (by omega)
    have h17 : (2 : Nat) ^ 17 = 131072 := by norm_num
    omega
  have hdvd : (2 : Nat) ^ b ∣ 2 ^ 16 := pow_dvd_pow 2 hb
  have h16 : (2 : Nat) ^ 16 = 65536 := by norm_num
  exact_mod_cast h16 ▸ Int.natCast_dvd_natCast.mpr hdvd

/-! ### Send-path frame lemmas -/

/-- The on-wire identity of a queued slot: its payload size and type. -/
def slotShape (o : Option PacketWrap) : Option (Nat × Nat) :=
  Option.map (fun pw => (pw.payload, pw.ptype)) o

/-- `sendPacketWrap` changes neither the queue bookkeeping nor any
slot's payload or type. -/
theorem sendPacketWrap_frame (c : Conn) (i : Int) (pw : PacketWrap) (now : Nat)
    (hg : rbufferGet c.outbuf i = some pw) :
    (sendPacketWrap c i pw now).queue = c.queue ∧
    (sendPacketWrap c i pw now).seqnr = c.seqnr ∧
    (sendPacketWrap c i pw now).state = c.state ∧
    (sendPacketWrap c i pw now).outbuf.mask = c.outbuf.mask ∧
    ∀ x : Int, slotShape (rbufferGet (sendPacketWrap c i pw now).outbuf x) =
      slotShape (rbufferGet c.outbuf x) := by
  refine ⟨rfl, rfl, rfl, rfl, ?_⟩
  intro x
  show slotShape (rbufferGet (rbufferPut c.outbuf i _) x) = _
  rw [rbufferGet_put]
  split
  · rename_i hx
    rw [rbufferGet_congr c.outbuf x i hx, hg]
    rfl
  · rfl

/-- One unfolding of the flush walk. -/
theorem flushGo_succ (now : Nat) (c : Conn) (r k : Nat) :
    flushGo now c (r + 1) k =
      match rbufferGet c.outbuf ((c.seqnr : Int) - c.queue + k) with
      | none => flushGo now c r (k + 1)
      | some pw =>
        if pw.transmissions > 0 ∧ pw.needResend = false then flushGo now c r (k + 1)
        else if rdpConnFlightWindowFull c then (c, true)
        else flushGo now (sendPacketWrap c ((c.seqnr : Int) - c.queue + k) pw now) r
          (k + 1) := rfl

/-- The flush walk changes neither the queue bookkeeping nor any slot's
payload or type. -/
theorem flushGo_frame (now : Nat) : ∀ (r : Nat) (k : Nat) (c : Conn),
    (flushGo now c r k).1.queue = c.queue ∧
    (flushGo now c r k).1.seqnr = c.seqnr ∧
    (flushGo now c r k).1.outbuf.mask = c.outbuf.mask ∧
    ∀ x : Int, slotShape (rbufferGet (flushGo now c r k).1.outbuf x) =
      slotShape (rbufferGet c.outbuf x) := by
  intro r
  induction r with
  | zero => intro k c; exact ⟨rfl, rfl, rfl, fun _ => rfl⟩
  | succ r ih =>
    intro k c
    rw [flushGo_succ]
    split
    · exact ih (k + 1) c
    · split
      · exact ih (k + 1) c
      · split
        · exact ⟨rfl, rfl, rfl, fun _ => rfl⟩
        · rename_i pw hg _ _
          obtain ⟨hq, hs, _, hm, hsh⟩ :=
            sendPacketWrap_frame c ((c.seqnr : Int) - c.queue + k) pw now hg
          obtain ⟨hq2, hs2, hm2, hsh2⟩ :=
            ih (k + 1) (sendPacketWrap c ((c.seqnr : Int) - c.queue + k) pw now)
          exact ⟨by rw [hq2, hq], by rw [hs2, hs], by rw [hm2, hm],
            fun x => by rw [hsh2 x, hsh x]⟩

/-! ### `buildSendPacket` lemmas -/

/-- No piggyback coalescing is possible: the queue is empty, or the last
enqueued slot is already transmitted or already full. -/
def noCoalesce (c : Conn) : Prop :=
  c.queue = 0 ∨
    ∀ pw : PacketWrap, rbufferGet c.outbuf ((c.seqnr : Int) - 1) = some pw →
      pw.transmissions ≠ 0 ∨ getMaxPacketPayloadSize ≤ pw.payload

/-- The send ring size is a power of two of at most `2^16` (maintained
by `rbufferInit`/`rbufferGrow`). -/
def outbufSizeInv (c : Conn) : Prop :=
  (∃ a : Nat, c.outbuf.mask + 1 = 2 ^ a) ∧ c.outbuf.mask + 1 ≤ 65536

/-- Every stored slot's payload is at most the MSS. -/
def bufPayloadLe (buf : RBuf PacketWrap) : Prop :=
  ∀ (x : Int) (pw : PacketWrap), rbufferGet buf x = some pw →
    pw.payload ≤ getMaxPacketPayloadSize

def allPayloadLe (c : Conn) : Prop := bufPayloadLe c.outbuf

theorem bufPayloadLe_put (buf : RBuf PacketWrap) (i : Int) (v : Option PacketWrap)
    (hb : bufPayloadLe buf)
    (hv : ∀ pw, v = some pw → pw.payload ≤ getMaxPacketPayloadSize) :
    bufPayloadLe (rbufferPut buf i v) := by
  intro x pw hx
  rw [rbufferGet_put] at hx
  split at hx
  · exact hv pw hx
  · exact hb x pw hx

theorem bufPayloadLe_ensure (buf : RBuf PacketWrap) (item : Int) (index : Nat)
    (hb : bufPayloadLe buf) : bufPayloadLe (rbufferEnsureSize buf item index) := by
  intro x pw hx
  rcases rbufferEnsureSize_get_cases buf item index x with h | ⟨y, h⟩
  · rw [h] at hx; cases hx
  · rw [h] at hx; exact hb y pw hx

theorem bufPayloadLe_of_shape (b1 b2 : RBuf PacketWrap)
    (h : ∀ x : Int, slotShape (rbufferGet b2 x) = slotShape (rbufferGet b1 x))
    (hb : bufPayloadLe b1) : bufPayloadLe b2 := by
  intro x pw hx
  have hs := h x
  rw [hx] at hs
  cases hy : rbufferGet b1 x with
  | none => rw [hy] at hs; simp [slotShape] at hs
  | some pw1 =>
    rw [hy] at hs
    simp only [slotShape, Option.map_some', Option.some.injEq, Prod.mk.injEq] at hs
    have := hb x pw1 hy
    omega

/-- One unfolding of the fueled `buildSendPacket` body. -/
theorem buildSendPacketF_succ (fuel : Nat) (c : Conn) (payload ptype : Nat) :
    buildSendPacketF (fuel + 1) c payload ptype =
      (match (if 0 < c.queue then rbufferGet c.outbuf ((c.seqnr : Int) - 1) else none) with
      | some pw =>
        if payload ≠ 0 ∧ pw.transmissions = 0 ∧ pw.payload < getMaxPacketPayloadSize then
          if payload - (min (payload + pw.payload) getMaxPacketPayloadSize - pw.payload) = 0 then
            coalesceConn c pw payload ptype
          else
            buildSendPacketF fuel (coalesceConn c pw payload ptype)
              (payload - (min (payload + pw.payload) getMaxPacketPayloadSize - pw.payload))
              ptype
        else appendWrap c payload ptype
      | none => appendWrap c payload ptype) := rfl

/-- When no coalescing can happen (zero payload, empty queue, or a full
or already-sent last slot), `buildSendPacket` appends exactly one fresh
slot of the given payload at `seqnr` and advances `seqnr` and `queue`. -/
theorem buildSendPacket_append (c : Conn) (p t : Nat)
    (hnc : p = 0 ∨ noCoalesce c) :
    buildSendPacket c p t = appendWrap c p t := by
  unfold buildSendPacket
  rw [buildSendPacketF_succ]
  split
  · rename_i pw heq
    rw [if_neg]
    rintro ⟨hp0, htrans, hfull⟩
    have hq : 0 < c.queue := by
      by_contra hq0
      rw [if_neg hq0] at heq
      cases heq
    rw [if_pos hq] at heq
    rcases hnc with rfl | hnc
    · exact hp0 rfl
    · rcases hnc with hz | hno
      · omega
      · rcases hno pw heq with h | h
        · exact h htrans
        · omega
  · rfl

theorem appendWrap_allPayload (c : Conn) (p t : Nat)
    (hp : p ≤ getMaxPacketPayloadSize) (hall : allPayloadLe c) :
    allPayloadLe (appendWrap c p t) := by
  refine bufPayloadLe_put _ _ _ (bufPayloadLe_ensure _ _ _ hall) ?_
  intro pw2 hpw2
  cases hpw2
  exact hp

theorem coalesceConn_allPayload (c : Conn) (pw : PacketWrap) (p t : Nat)
    (hpw : pw.payload < getMaxPacketPayloadSize) (hall : allPayloadLe c) :
    allPayloadLe (coalesceConn c pw p t) := by
  refine bufPayloadLe_put _ _ _ hall ?_
  intro pw2 hpw2
  cases hpw2
  show pw.payload + (min (p + pw.payload) getMaxPacketPayloadSize - pw.payload) ≤ _
  omega

/-- `buildSendPacket` keeps every slot's payload at most the MSS. -/
theorem buildSendPacketF_allPayload : ∀ (fuel : Nat) (c : Conn) (p t : Nat),
    p ≤ getMaxPacketPayloadSize → allPayloadLe c →
    allPayloadLe (buildSendPacketF fuel c p t) := by
  intro fuel
  induction fuel with
  | zero => intro c p t _ h; exact h
  | succ fuel ih =>
    intro c p t hp hall
    rw [buildSendPacketF_succ]
    split
    · rename_i pw heq
      split
      · rename_i hco
        split
        · exact coalesceConn_allPayload c pw p t hco.2.2 hall
        · exact ih _ _ t (by omega) (coalesceConn_allPayload c pw p t hco.2.2 hall)
      · exact appendWrap_allPayload c p t hp hall
    · exact appendWrap_allPayload c p t hp hall

/-- One unfolding of the fueled segmentation loop. -/
theorem writeLoopF_succ (fuel : Nat) (c : Conn) (total sent validSend : Nat) :
    writeLoopF (fuel + 1) c total sent validSend =
      (if c.queue < RDP_QUEUE_SIZE_MAX - 1 then
        if min (total - validSend) getMaxPacketPayloadSize = 0 then
          (buildSendPacket c validSend ST_DATA, total - validSend, sent + validSend)
        else
          writeLoopF fuel (buildSendPacket c validSend ST_DATA) (total - validSend)
            (sent + validSend) (min (total - validSend) getMaxPacketPayloadSize)
      else (c, total, sent)) := rfl

/-- The segmentation loop keeps every slot's payload at most the MSS. -/
theorem writeLoopF_allPayload : ∀ (fuel : Nat) (c : Conn) (total sent vs : Nat),
    vs ≤ getMaxPacketPayloadSize → allPayloadLe c →
    allPayloadLe (writeLoopF fuel c total sent vs).1 := by
  intro fuel
  induction fuel with
  | zero => intro c _ _ _ _ h; exact h
  | succ fuel ih =>
    intro c total sent vs hvs hall
    rw [writeLoopF_succ]
    split
    · split
      · exact buildSendPacketF_allPayload _ c vs ST_DATA hvs hall
      · exact ih _ _ _ _ (min_le_right _ _)
          (buildSendPacketF_allPayload _ c vs ST_DATA hvs hall)
    · exact hall

/-- A zero-byte write runs one loop body and stops. -/
theorem writeLoopF_zero (fuel : Nat) (c : Conn)
    (hq : c.queue < RDP_QUEUE_SIZE_MAX - 1) :
    writeLoopF (fuel + 2) c 0 0 (min 0 getMaxPacketPayloadSize) =
      (buildSendPacket c 0 ST_DATA, 0, 0) := by
  show writeLoopF (fuel + 1 + 1) c 0 0 (min 0 getMaxPacketPayloadSize) = _
  rw [writeLoopF_succ, if_pos hq, if_pos (by simp)]
  simp

/-- `rdpWriteVec` on a `CS_CONNECTED`, non-full connection: loop, flush,
then report. -/
theorem rdpWriteVec_connected (c : Conn) (lens : List Nat) (now : Nat)
    (hstate : c.state = CS_CONNECTED)
    (hl1 : lens.length ≠ 0) (hl2 : lens.length ≤ RDP_MAX_VEC)
    (hfull : rdpConnFlightWindowFull c = false) :
    rdpWriteVec c lens now =
      ((if (writeLoopF (lens.sum + 2) c lens.sum 0 (min lens.sum getMaxPacketPayloadSize)).2.2 = 0 then
          if (writeLoopF (lens.sum + 2) c lens.sum 0 (min lens.sum getMaxPacketPayloadSize)).2.1 = 0 then
            Except.ok 0
          else Except.error EAGAIN
        else Except.ok (writeLoopF (lens.sum + 2) c lens.sum 0 (min lens.sum getMaxPacketPayloadSize)).2.2),
       (if (rdpConnFlushPackets (writeLoopF (lens.sum + 2) c lens.sum 0 (min lens.sum getMaxPacketPayloadSize)).1 now).2 then
          { (rdpConnFlushPackets (writeLoopF (lens.sum + 2) c lens.sum 0 (min lens.sum getMaxPacketPayloadSize)).1 now).1 with
            state := CS_CONNECTED_FULL }
        else (rdpConnFlushPackets (writeLoopF (lens.sum + 2) c lens.sum 0 (min lens.sum getMaxPacketPayloadSize)).1 now).1)) := by
  unfold rdpWriteVec
  rw [if_neg hl1, if_neg (by omega : ¬ lens.length > RDP_MAX_VEC)]
  split <;>
    first
      | (rename_i heq
         exact absurd (heq ▸ hstate) (by decide))
      | (simp only [hfull, Bool.false_eq_true, if_false]
         split <;> split <;> rfl)

/-- A connected connection whose send queue already holds
`RDP_QUEUE_SIZE_MAX - 1 = 16383` packets (the last ring slot is
reserved for FIN). -/
def connQueueFull : Conn :=
  { connEx with state := CS_CONNECTED, queue := 16383, seqnr := 16383 }

/-- C9 counterexample: on `connQueueFull` (connected, flight window not
full, 16383 queued packets) a zero-length write returns 0 but enqueues
nothing — `queue` stays 16383 instead of growing by one. -/
theorem zero_write_counterexample :
    (rdpWriteVec connQueueFull [0] 0).1 = Except.ok 0 ∧
    rdpConnFlightWindowFull connQueueFull = false ∧
    connQueueFull.state = CS_CONNECTED ∧
    (rdpWriteVec connQueueFull [0] 0).2.queue = 16383 ∧
    (16383 : Nat) ≠ 16383 + 1 := by
  have hfull : rdpConnFlightWindowFull connQueueFull = false := by decide
  rw [rdpWriteVec_connected connQueueFull [0] 0 rfl (by decide) (by decide) hfull]
  have hl : writeLoopF (List.sum [0] + 2) connQueueFull (List.sum [0]) 0
      (min (List.sum [0]) getMaxPacketPayloadSize) = (connQueueFull, 0, 0) := by
    show writeLoopF (0 + 1 + 1) connQueueFull 0 0 (min 0 getMaxPacketPayloadSize) = _
    rw [writeLoopF_succ, if_neg (by decide)]
  rw [hl]
  obtain ⟨hfq, _, _, _⟩ := flushGo_frame 0 connQueueFull.queue 0 connQueueFull
  have hfr : rdpConnFlushPackets ((connQueueFull, (0 : Nat), (0 : Nat)).1) 0 =
      flushGo 0 connQueueFull connQueueFull.queue 0 := rfl
  refine ⟨by simp, hfull, rfl, ?_, by decide⟩
  rw [hfr]
  generalize hgen : flushGo 0 connQueueFull connQueueFull.queue 0 = fr
  rw [hgen] at hfq
  have hq16 : connQueueFull.queue = 16383 := rfl
  rw [hq16] at hfq
  cases hb : fr.2 <;>
    simp only [hb, if_true, if_false, Bool.false_eq_true, Bool.true_eq_false] <;>
    exact hfq

/-- C9 (amended): on a `CS_CONNECTED` connection whose flight window is
not full and whose send queue is below `RDP_QUEUE_SIZE_MAX - 1`, a
`rdpWriteVec` call with 1 to 1024 vectors all of length 0 returns 0 and
still enqueues one zero-payload `ST_DATA` packet: `seqnr` and `queue`
each advance by exactly one. -/
theorem zero_write (c : Conn) (lens : List Nat) (now : Nat)
    (hstate : c.state = CS_CONNECTED)
    (hfull : rdpConnFlightWindowFull c = false)
    (hl1 : lens.length ≠ 0) (hl2 : lens.length ≤ RDP_MAX_VEC)
    (hzero : ∀ l ∈ lens, l = 0)
    (hq : c.queue < RDP_QUEUE_SIZE_MAX - 1) :
    (rdpWriteVec c lens now).1 = Except.ok 0 ∧
    (rdpWriteVec c lens now).2.queue = c.queue + 1 ∧
    (rdpWriteVec c lens now).2.seqnr = (c.seqnr + 1) % 65536 ∧
    slotShape (rbufferGet (rdpWriteVec c lens now).2.outbuf (c.seqnr : Int)) =
      some (0, ST_DATA) := by
  have hsum : lens.sum = 0 := List.sum_eq_zero hzero
  rw [rdpWriteVec_connected c lens now hstate hl1 hl2 hfull, hsum,
    writeLoopF_zero 0 c hq, buildSendPacket_append c 0 ST_DATA (Or.inl rfl)]
  obtain ⟨hfq, hfs, hfm, hfsh⟩ :=
    flushGo_frame now (appendWrap c 0 ST_DATA).queue 0 (appendWrap c 0 ST_DATA)
  have hget : slotShape (rbufferGet
      (rdpConnFlushPackets (appendWrap c 0 ST_DATA) now).1.outbuf (c.seqnr : Int)) =
      some (0, ST_DATA) := by
    rw [show rdpConnFlushPackets (appendWrap c 0 ST_DATA) now =
        flushGo now (appendWrap c 0 ST_DATA) (appendWrap c 0 ST_DATA).queue 0 from rfl]
    rw [hfsh (c.seqnr : Int)]
    rw [show (appendWrap c 0 ST_DATA).outbuf =
        rbufferPut (rbufferEnsureSize c.outbuf c.seqnr c.queue) (c.seqnr : Int)
          (some (freshWrap c 0 ST_DATA)) from rfl,
      rbufferGet_put_self]
    rfl
  refine ⟨by simp, ?_, ?_, ?_⟩ <;>
    cases hb : (rdpConnFlushPackets (appendWrap c 0 ST_DATA) now).2 <;>
      simp only [hb, if_true, if_false, Bool.false_eq_true, Bool.true_eq_false]
  · exact hfq
  · exact hfq
  · exact hfs
  · exact hfs
  · exact hget
  · exact hget

/-- C9 witness: the amended theorem on a fresh connected connection with
two zero-length vectors. -/
theorem zero_write_witness :
    (rdpWriteVec { connEx with state := CS_CONNECTED } [0, 0] 7).1 = Except.ok 0 ∧
    (rdpWriteVec { connEx with state := CS_CONNECTED } [0, 0] 7).2.queue = 0 + 1 ∧
    (rdpWriteVec { connEx with state := CS_CONNECTED } [0, 0] 7).2.seqnr = (0 + 1) % 65536 ∧
    slotShape (rbufferGet (rdpWriteVec { connEx with state := CS_CONNECTED } [0, 0] 7).2.outbuf
      ((0 : Nat) : Int)) = some (0, ST_DATA) :=
  zero_write { connEx with state := CS_CONNECTED } [0, 0] 7 rfl (by decide)
    (by decide) (by decide) (by decide) (by decide)

/-- After a non-coalescing append, the new last slot is the fresh one. -/
theorem appendWrap_last (c : Conn) (p t : Nat) (hq : c.queue ≤ 16382)
    (hinv : outbufSizeInv c) :
    rbufferGet (appendWrap c p t).outbuf (((appendWrap c p t).seqnr : Int) - 1) =
      some (freshWrap c p t) ∧ outbufSizeInv (appendWrap c p t) := by
  obtain ⟨hpow, hle, hidx⟩ :=
    rbufferEnsureSize_inv c.outbuf (c.seqnr : Int) c.queue (by omega) hinv.1 hinv.2
  have hdvd : (((rbufferEnsureSize c.outbuf (c.seqnr : Int) c.queue).mask + 1 : Nat) : Int) ∣ 65536 :=
    size_dvd_65536 _ hpow hle
  constructor
  · have hmod : ((((c.seqnr + 1) % 65536 : Nat) : Int) - 1) % 65536 =
        ((c.seqnr : Nat) : Int) % 65536 := by
      push_cast
      omega
    have hcongr : ((((c.seqnr + 1) % 65536 : Nat) : Int) - 1) %
          (((rbufferEnsureSize c.outbuf (c.seqnr : Int) c.queue).mask : Int) + 1) =
        ((c.seqnr : Nat) : Int) %
          (((rbufferEnsureSize c.outbuf (c.seqnr : Int) c.queue).mask : Int) + 1) := by
      have hcast : (((rbufferEnsureSize c.outbuf (c.seqnr : Int) c.queue).mask : Int) + 1) =
          (((rbufferEnsureSize c.outbuf (c.seqnr : Int) c.queue).mask + 1 : Nat) : Int) := by
        push_cast
        ring
      rw [hcast]
      exact Int.ModEq.of_dvd hdvd hmod
    show rbufferGet (rbufferPut (rbufferEnsureSize c.outbuf (c.seqnr : Int) c.queue)
      ((c.seqnr : Nat) : Int) (some (freshWrap c p t))) ((((c.seqnr + 1) % 65536 : Nat) : Int) - 1) = _
    rw [rbufferGet_put]
    rw [if_pos hcongr]
  · exact ⟨hpow, hle⟩



/-- With no coalescing possible at entry (and enough queue room), the
segmentation loop enqueues exactly `ceil(T / 1390)` packets for a
`T`-byte write and consumes all bytes. -/
theorem writeLoopF_count : ∀ (fuel : Nat) (c : Conn) (T sent : Nat),
    1 ≤ T → T < fuel → noCoalesce c → outbufSizeInv c →
    c.queue + (T + 1389) / 1390 ≤ 16383 → c.seqnr < 65536 →
    (writeLoopF fuel c T sent (min T getMaxPacketPayloadSize)).1.queue =
        c.queue + (T + 1389) / 1390 ∧
    (writeLoopF fuel c T sent (min T getMaxPacketPayloadSize)).1.seqnr =
        (c.seqnr + (T + 1389) / 1390) % 65536 ∧
    (writeLoopF fuel c T sent (min T getMaxPacketPayloadSize)).2.1 = 0 ∧
    (writeLoopF fuel c T sent (min T getMaxPacketPayloadSize)).2.2 = sent + T := by
  intro fuel
  induction fuel with
  | zero => intro c T sent h1 h2; omega
  | succ fuel ih =>
    intro c T sent h1 h2 hnc hinv hqb hs
    have hmv : getMaxPacketPayloadSize = 1390 := rfl
    have hceil1 : 1 ≤ (T + 1389) / 1390 := by omega
    have hqlt : c.queue < RDP_QUEUE_SIZE_MAX - 1 := by
      show c.queue < 16 * 1024 - 1
      omega
    rw [writeLoopF_succ, if_pos hqlt]
    by_cases hT : T ≤ 1390
    · -- single final packet
      have hvs : min T getMaxPacketPayloadSize = T := by omega
      have hbr : min (T - min T getMaxPacketPayloadSize) getMaxPacketPayloadSize = 0 := by
        omega
      rw [if_pos hbr,
        buildSendPacket_append c (min T getMaxPacketPayloadSize) ST_DATA (Or.inr hnc)]
      have hq1 : (appendWrap c (min T getMaxPacketPayloadSize) ST_DATA).queue =
          c.queue + 1 := rfl
      have hs1 : (appendWrap c (min T getMaxPacketPayloadSize) ST_DATA).seqnr =
          (c.seqnr + 1) % 65536 := rfl
      refine ⟨?_, ?_, ?_, ?_⟩
      · rw [hq1]; omega
      · rw [hs1]; omega
      · show T - min T getMaxPacketPayloadSize = 0; omega
      · show sent + min T getMaxPacketPayloadSize = sent + T; omega
    · -- full packet then recurse
      have hvs : min T getMaxPacketPayloadSize = 1390 := by omega
      have hbr : ¬ (min (T - min T getMaxPacketPayloadSize) getMaxPacketPayloadSize = 0) := by
        omega
      rw [if_neg hbr,
        buildSendPacket_append c (min T getMaxPacketPayloadSize) ST_DATA (Or.inr hnc)]
      obtain ⟨hlast, hinv1⟩ :=
        appendWrap_last c (min T getMaxPacketPayloadSize) ST_DATA (by omega) hinv
      have hnc1 : noCoalesce (appendWrap c (min T getMaxPacketPayloadSize) ST_DATA) := by
        right
        intro pw hpw
        rw [hlast] at hpw
        cases hpw
        right
        show getMaxPacketPayloadSize ≤ min T getMaxPacketPayloadSize
        omega
      obtain ⟨ih1, ih2, ih3, ih4⟩ := ih (appendWrap c (min T getMaxPacketPayloadSize) ST_DATA)
        (T - min T getMaxPacketPayloadSize) (sent + min T getMaxPacketPayloadSize)
        (by omega) (by omega) hnc1 hinv1
        (by
          show (appendWrap c (min T getMaxPacketPayloadSize) ST_DATA).queue +
            ((T - min T getMaxPacketPayloadSize) + 1389) / 1390 ≤ 16383
          have hq1 : (appendWrap c (min T getMaxPacketPayloadSize) ST_DATA).queue =
            c.queue + 1 := rfl
          rw [hq1]
          omega)
        (by
          show (appendWrap c (min T getMaxPacketPayloadSize) ST_DATA).seqnr < 65536
          have hs1 : (appendWrap c (min T getMaxPacketPayloadSize) ST_DATA).seqnr =
            (c.seqnr + 1) % 65536 := rfl
          rw [hs1]
          omega)
      have hq1 : (appendWrap c (min T getMaxPacketPayloadSize) ST_DATA).queue =
          c.queue + 1 := rfl
      have hs1 : (appendWrap c (min T getMaxPacketPayloadSize) ST_DATA).seqnr =
          (c.seqnr + 1) % 65536 := rfl
      rw [hq1] at ih1
      rw [hs1] at ih2
      refine ⟨?_, ?_, ?_, ?_⟩
      · rw [ih1]; omega
      · rw [ih2]; omega
      · exact ih3
      · rw [ih4]; omega

/-- C1 (amended): the on-wire MSS computed by `getMaxPacketPayloadSize`
is 1390 bytes for IPv4 (`UDP_IPV4_MTU = 1402` minus the 12-byte packet
header), and a write of `N ≥ 1` bytes on a `CS_CONNECTED` connection
with an empty send queue, a non-full flight window and room for
`ceil(N / 1390)` packets returns `N`, is segmented into exactly
`ceil(N / 1390)` queued packets, and leaves every queued packet's
payload at most 1390 bytes. -/
theorem mss_segmentation :
    getMaxPacketPayloadSize = 1390 ∧
    ∀ (c : Conn) (lens : List Nat) (now : Nat),
      c.state = CS_CONNECTED →
      rdpConnFlightWindowFull c = false →
      c.queue = 0 →
      lens.length ≠ 0 → lens.length ≤ RDP_MAX_VEC →
      1 ≤ lens.sum → (lens.sum + 1389) / 1390 ≤ 16383 →
      c.seqnr < 65536 → outbufSizeInv c → allPayloadLe c →
      (rdpWriteVec c lens now).1 = Except.ok lens.sum ∧
      (rdpWriteVec c lens now).2.queue = (lens.sum + 1389) / 1390 ∧
      allPayloadLe (rdpWriteVec c lens now).2 := by
  refine ⟨rfl, ?_⟩
  intro c lens now hstate hfull hq0 hl1 hl2 hsum hceil hs hinv hall
  rw [rdpWriteVec_connected c lens now hstate hl1 hl2 hfull]
  obtain ⟨h1, h2, h3, h4⟩ := writeLoopF_count (lens.sum + 2) c lens.sum 0
    hsum (by omega) (Or.inl hq0) hinv (by omega) hs
  have hwall : allPayloadLe
      (writeLoopF (lens.sum + 2) c lens.sum 0 (min lens.sum getMaxPacketPayloadSize)).1 :=
    writeLoopF_allPayload _ c _ _ _ (min_le_right _ _) hall
  obtain ⟨hfq, hfs, hfm, hfsh⟩ := flushGo_frame now
    (writeLoopF (lens.sum + 2) c lens.sum 0 (min lens.sum getMaxPacketPayloadSize)).1.queue 0
    (writeLoopF (lens.sum + 2) c lens.sum 0 (min lens.sum getMaxPacketPayloadSize)).1
  refine ⟨?_, ?_, ?_⟩
  · show (if (writeLoopF (lens.sum + 2) c lens.sum 0 (min lens.sum getMaxPacketPayloadSize)).2.2 = 0 then
        if (writeLoopF (lens.sum + 2) c lens.sum 0 (min lens.sum getMaxPacketPayloadSize)).2.1 = 0 then
          Except.ok 0
        else Except.error EAGAIN
      else Except.ok (writeLoopF (lens.sum + 2) c lens.sum 0 (min lens.sum getMaxPacketPayloadSize)).2.2) =
      Except.ok lens.sum
    rw [h4, if_neg (by omega), Nat.zero_add]
  · show (if (rdpConnFlushPackets (writeLoopF (lens.sum + 2) c lens.sum 0 (min lens.sum getMaxPacketPayloadSize)).1 now).2 then
        { (rdpConnFlushPackets (writeLoopF (lens.sum + 2) c lens.sum 0 (min lens.sum getMaxPacketPayloadSize)).1 now).1 with
          state := CS_CONNECTED_FULL }
      else (rdpConnFlushPackets (writeLoopF (lens.sum + 2) c lens.sum 0 (min lens.sum getMaxPacketPayloadSize)).1 now).1).queue =
      (lens.sum + 1389) / 1390
    cases hb : (rdpConnFlushPackets (writeLoopF (lens.sum + 2) c lens.sum 0 (min lens.sum getMaxPacketPayloadSize)).1 now).2 <;>
      simp only [hb, if_true, if_false, Bool.false_eq_true, Bool.true_eq_false]
    · show (rdpConnFlushPackets (writeLoopF (lens.sum + 2) c lens.sum 0 (min lens.sum getMaxPacketPayloadSize)).1 now).1.queue = _
      rw [show (rdpConnFlushPackets (writeLoopF (lens.sum + 2) c lens.sum 0 (min lens.sum getMaxPacketPayloadSize)).1 now) =
        flushGo now (writeLoopF (lens.sum + 2) c lens.sum 0 (min lens.sum getMaxPacketPayloadSize)).1
          (writeLoopF (lens.sum + 2) c lens.sum 0 (min lens.sum getMaxPacketPayloadSize)).1.queue 0 from rfl]
      rw [hfq, h1]
      omega
    · rw [show (rdpConnFlushPackets (writeLoopF (lens.sum + 2) c lens.sum 0 (min lens.sum getMaxPacketPayloadSize)).1 now) =
        flushGo now (writeLoopF (lens.sum + 2) c lens.sum 0 (min lens.sum getMaxPacketPayloadSize)).1
          (writeLoopF (lens.sum + 2) c lens.sum 0 (min lens.sum getMaxPacketPayloadSize)).1.queue 0 from rfl]
      rw [hfq, h1]
      omega
  · cases hb : (rdpConnFlushPackets (writeLoopF (lens.sum + 2) c lens.sum 0 (min lens.sum getMaxPacketPayloadSize)).1 now).2 <;>
      simp only [hb, if_true, if_false, Bool.false_eq_true, Bool.true_eq_false] <;>
      exact bufPayloadLe_of_shape _ _
        (by
          rw [show (rdpConnFlushPackets (writeLoopF (lens.sum + 2) c lens.sum 0 (min lens.sum getMaxPacketPayloadSize)).1 now) =
            flushGo now (writeLoopF (lens.sum + 2) c lens.sum 0 (min lens.sum getMaxPacketPayloadSize)).1
              (writeLoopF (lens.sum + 2) c lens.sum 0 (min lens.sum getMaxPacketPayloadSize)).1.queue 0 from rfl]
          exact hfsh) hwall

set_option maxRecDepth 40000 in
/-- C1 counterexample: `getMaxPacketPayloadSize` is 1390, not 1402
(1402 is `UDP_IPV4_MTU`, which still includes the 12-byte packet
header), and a 1402-byte write on a fresh connected connection is
segmented into 2 packets, not `ceil(1402 / 1402) = 1`. -/
theorem mss_claim_counterexample :
    getMaxPacketPayloadSize = 1390 ∧ (1390 : Nat) ≠ 1402 ∧
    (rdpWriteVec { connEx with state := CS_CONNECTED } [1402] 0).2.queue = 2 ∧
    (1402 + 1402 - 1) / 1402 = 1 ∧ (2 : Nat) ≠ 1 :=
  ⟨rfl, by decide, by decide, by decide, by decide⟩

/-! ### `selectiveAck` lemmas -/

/-- The in-window guard of `selectiveAck` (rdp.c line 1228) in
positive form: the body processes `v` rather than skipping it. -/
def sackWindow (c : Conn) (v : Int) : Prop :=
  ((c.seqnr : Int) - v - 1) % 65536 < ((c.queue : Int) - 1) % 65536

/-- The slot at `v` exists and was transmitted (`ackPacket` removes
exactly such slots). -/
def slotLive (c : Conn) (v : Int) : Prop :=
  ∃ pw : PacketWrap, rbufferGet c.outbuf v = some pw ∧ pw.transmissions ≠ 0

/-- `ackPacket` leaves the queue bookkeeping and the ring mask alone. -/
theorem ackPacket_fields (c : Conn) (i : Int) (now : Nat) :
    (ackPacket c i now).queue = c.queue ∧
    (ackPacket c i now).seqnr = c.seqnr ∧
    (ackPacket c i now).outbuf.mask = c.outbuf.mask := by
  unfold ackPacket
  split
  · exact ⟨rfl, rfl, rfl⟩
  · split
    · exact ⟨rfl, rfl, rfl⟩
    · split <;> split <;> exact ⟨rfl, rfl, rfl⟩

/-- `ackPacket` never fills a slot. -/
theorem ackPacket_none (c : Conn) (i : Int) (now : Nat) (w : Int)
    (hw : rbufferGet c.outbuf w = none) :
    rbufferGet (ackPacket c i now).outbuf w = none := by
  unfold ackPacket
  split
  · exact hw
  · split
    · exact hw
    · split <;> split <;>
        (show rbufferGet (rbufferPut c.outbuf i none) w = none
         rw [rbufferGet_put]
         split <;> simp [hw])

/-- `ackPacket` on a live slot clears it. -/
theorem ackPacket_cleared (c : Conn) (i : Int) (now : Nat)
    (hl : slotLive c i) :
    rbufferGet (ackPacket c i now).outbuf i = none := by
  obtain ⟨pw, hget, htr⟩ := hl
  unfold ackPacket
  split
  · rename_i h
    rw [hget] at h
    cases h
  · rename_i pw2 h
    rw [hget] at h
    cases h
    rw [if_neg htr]
    split <;> split <;>
      exact rbufferGet_put_self _ _ _

/-- `ackPacket` touches no ring position outside `i`'s slot. -/
theorem ackPacket_other (c : Conn) (i : Int) (now : Nat) (w : Int)
    (hne : w % ((c.outbuf.mask : Int) + 1) ≠ i % ((c.outbuf.mask : Int) + 1)) :
    rbufferGet (ackPacket c i now).outbuf w = rbufferGet c.outbuf w := by
  unfold ackPacket
  split
  · rfl
  · split
    · rfl
    · split <;> split <;>
        (show rbufferGet (rbufferPut c.outbuf i none) w = rbufferGet c.outbuf w
         rw [rbufferGet_put, if_neg hne])

/-- The `selectiveAck` body either performs exactly one `ackPacket` on a
live, bit-set, in-window sequence, or does nothing. -/
theorem selAckBody_spec (c : Conn) (start : Int) (mask : List Nat) (now : Nat)
    (off : Int) :
    (sackWindow c (start + off) ∧ sackBit mask off = true ∧
      slotLive c (start + off) ∧
      selAckBody c start mask now off = ackPacket c (start + off) now) ∨
    selAckBody c start mask now off = c := by
  unfold selAckBody
  split
  · exact Or.inr rfl
  · rename_i hguard
    split
    · exact Or.inr rfl
    · rename_i pw hget
      split
      · exact Or.inr rfl
      · rename_i htr
        split
        · rename_i hbit
          exact Or.inl ⟨by unfold sackWindow; omega, hbit, ⟨pw, hget, htr⟩, rfl⟩
        · exact Or.inr rfl

/-- Two distinct in-window SACK offsets always address distinct ring
slots: the window spans at most `queue - 1 < size` consecutive
sequences. -/
theorem sack_offset_inj (c : Conn) (start : Int) (len : Nat)
    (hq1 : 1 ≤ c.queue) (hq2 : c.queue ≤ RDP_QUEUE_SIZE_MAX)
    (hqsz : c.queue ≤ c.outbuf.mask + 1)
    (hlen : len ≤ 255) :
    ∀ o o2 : Nat, o < len * 8 → o2 < len * 8 →
      sackWindow c (start + o) → sackWindow c (start + o2) →
      ((start + o) - (start + o2)) % ((c.outbuf.mask : Int) + 1) = 0 →
      o = o2 := by
  intro o o2 ho ho2 hw hw2 hcong
  unfold sackWindow at hw hw2
  have hq2v : c.queue ≤ 16384 := hq2
  have hcast : ((c.outbuf.mask : Int) + 1) = ((c.outbuf.mask + 1 : Nat) : Int) := by
    push_cast; ring
  have hdvd2 : ((c.outbuf.mask + 1 : Nat) : Int) ∣ ((o : Int) - o2) := by
    have he : (start + o) - (start + o2) = (o : Int) - o2 := by ring
    rw [hcast, he] at hcong
    exact Int.dvd_of_emod_eq_zero hcong
  have habs : ((o : Int) - o2).natAbs < c.outbuf.mask + 1 := by omega
  have hzero : ((o : Int) - o2) = 0 := by
    refine Int.eq_zero_of_abs_lt_dvd hdvd2 ?_
    rw [abs_lt]
    constructor <;> omega
  omega

/-- The final `offset = -1` iteration of the `do/while` loop is a no-op:
the C `&&` short-circuits before reading `mask[-1 >> 3]`. -/
theorem selAckBody_neg_one (c : Conn) (start : Int) (mask : List Nat)
    (now : Nat) : selAckBody c start mask now (-1) = c := by
  have hb : sackBit mask (-1) = false := by
    unfold sackBit
    rw [if_pos]
    norm_num
  unfold selAckBody
  split
  · rfl
  · split
    · rfl
    · split
      · rfl
      · rw [hb]
        rfl

/-- Every slot after `ackPacket` is either cleared or untouched. -/
theorem ackPacket_slot (c : Conn) (i : Int) (now : Nat) (w : Int) :
    rbufferGet (ackPacket c i now).outbuf w = none ∨
    rbufferGet (ackPacket c i now).outbuf w = rbufferGet c.outbuf w := by
  by_cases h : w % ((c.outbuf.mask : Int) + 1) = i % ((c.outbuf.mask : Int) + 1)
  · unfold ackPacket
    split
    · exact Or.inr rfl
    · split
      · exact Or.inr rfl
      · split <;> split <;>
          (left
           show rbufferGet (rbufferPut c.outbuf i none) w = none
           rw [rbufferGet_put, if_pos h])
  · exact Or.inr (ackPacket_other c i now w h)

/-- The `selectiveAck` body leaves `queue`, `seqnr` and the ring mask
alone. -/
theorem selAckBody_fields (c : Conn) (start : Int) (mask : List Nat)
    (now : Nat) (off : Int) :
    (selAckBody c start mask now off).queue = c.queue ∧
    (selAckBody c start mask now off).seqnr = c.seqnr ∧
    (selAckBody c start mask now off).outbuf.mask = c.outbuf.mask := by
  rcases selAckBody_spec c start mask now off with ⟨_, _, _, heq⟩ | heq
  · rw [heq]
    exact ackPacket_fields c (start + off) now
  · rw [heq]
    exact ⟨rfl, rfl, rfl⟩

/-- The `selectiveAck` body never fills a slot. -/
theorem selAckBody_none (c : Conn) (start : Int) (mask : List Nat)
    (now : Nat) (off : Int) (w : Int)
    (hw : rbufferGet c.outbuf w = none) :
    rbufferGet (selAckBody c start mask now off).outbuf w = none := by
  rcases selAckBody_spec c start mask now off with ⟨_, _, _, heq⟩ | heq
  · rw [heq]
    exact ackPacket_none c (start + off) now w hw
  · rw [heq]
    exact hw

/-- Every slot after the `selectiveAck` body is either cleared or
untouched. -/
theorem selAckBody_slot (c : Conn) (start : Int) (mask : List Nat)
    (now : Nat) (off : Int) (w : Int) :
    rbufferGet (selAckBody c start mask now off).outbuf w = none ∨
    rbufferGet (selAckBody c start mask now off).outbuf w = rbufferGet c.outbuf w := by
  rcases selAckBody_spec c start mask now off with ⟨_, _, _, heq⟩ | heq
  · rw [heq]
    exact ackPacket_slot c (start + off) now w
  · rw [heq]
    exact Or.inr rfl

/-- On a live, bit-set, in-window offset the body is exactly one
`ackPacket`. -/
theorem selAckBody_hit (c : Conn) (start : Int) (mask : List Nat)
    (now : Nat) (off : Int)
    (hwin : sackWindow c (start + off)) (hbit : sackBit mask off = true)
    (hl : slotLive c (start + off)) :
    selAckBody c start mask now off = ackPacket c (start + off) now := by
  obtain ⟨pw, hget, htr⟩ := hl
  unfold sackWindow at hwin
  unfold selAckBody
  rw [if_neg (by omega), hget]
  show (if pw.transmissions = 0 then c
    else if sackBit mask off = true then ackPacket c (start + off) now
    else c) = ackPacket c (start + off) now
  rw [if_neg htr, if_pos hbit]

theorem selAckGo_zero (start : Int) (mask : List Nat) (now : Nat) (c : Conn) :
    selAckGo start mask now c 0 = selAckBody c start mask now (-1) := rfl

theorem selAckGo_succ (start : Int) (mask : List Nat) (now : Nat) (c : Conn)
    (m : Nat) :
    selAckGo start mask now c (m + 1) =
      selAckGo start mask now (selAckBody c start mask now m) m := rfl

/-- The whole `selectiveAck` loop leaves `queue`, `seqnr` and the ring
mask alone. -/
theorem selAckGo_fields (start : Int) (mask : List Nat) (now : Nat) :
    ∀ (m : Nat) (c : Conn),
      (selAckGo start mask now c m).queue = c.queue ∧
      (selAckGo start mask now c m).seqnr = c.seqnr ∧
      (selAckGo start mask now c m).outbuf.mask = c.outbuf.mask := by
  intro m
  induction m with
  | zero =>
    intro c
    rw [selAckGo_zero]
    exact selAckBody_fields c start mask now (-1)
  | succ m ih =>
    intro c
    rw [selAckGo_succ]
    obtain ⟨h1, h2, h3⟩ := ih (selAckBody c start mask now m)
    obtain ⟨g1, g2, g3⟩ := selAckBody_fields c start mask now m
    exact ⟨h1.trans g1, h2.trans g2, h3.trans g3⟩

/-- The `selectiveAck` loop never fills a slot. -/
theorem selAckGo_none (start : Int) (mask : List Nat) (now : Nat) (w : Int) :
    ∀ (m : Nat) (c : Conn), rbufferGet c.outbuf w = none →
      rbufferGet (selAckGo start mask now c m).outbuf w = none := by
  intro m
  induction m with
  | zero =>
    intro c h
    rw [selAckGo_zero]
    exact selAckBody_none c start mask now (-1) w h
  | succ m ih =>
    intro c h
    rw [selAckGo_succ]
    exact ih _ (selAckBody_none c start mask now m w h)

/-- A ring slot that no set-bit in-window offset aliases is untouched by
the whole loop. -/
theorem selAckGo_preserve (start : Int) (mask : List Nat) (now : Nat)
    (w : Int) :
    ∀ (m : Nat) (c : Conn),
      (∀ o : Nat, o < m → sackBit mask o = true → sackWindow c (start + o) →
        (start + o) % ((c.outbuf.mask : Int) + 1) ≠
          w % ((c.outbuf.mask : Int) + 1)) →
      rbufferGet (selAckGo start mask now c m).outbuf w =
        rbufferGet c.outbuf w := by
  intro m
  induction m with
  | zero =>
    intro c _
    rw [selAckGo_zero, selAckBody_neg_one]
  | succ m ih =>
    intro c hno
    rw [selAckGo_succ]
    obtain ⟨hq, hs, hm⟩ := selAckBody_fields c start mask now m
    have hbody : rbufferGet (selAckBody c start mask now m).outbuf w =
        rbufferGet c.outbuf w := by
      rcases selAckBody_spec c start mask now m with ⟨hwin, hbit, _, heq⟩ | heq
      · rw [heq]
        exact ackPacket_other c (start + m) now w
          (hno m (Nat.lt_succ_self m) hbit hwin).symm
      · rw [heq]
    refine (ih (selAckBody c start mask now m) ?_).trans hbody
    intro o ho hbit hwin
    rw [hm]
    apply hno o (Nat.lt_succ_of_lt ho) hbit
    unfold sackWindow at hwin ⊢
    rw [hq, hs] at hwin
    exact hwin

/-- A set-bit in-window offset whose slot is empty or live ends up
cleared after the whole loop. -/
theorem selAckGo_cleared (start : Int) (mask : List Nat) (now : Nat) :
    ∀ (m : Nat) (c : Conn) (o : Nat), o < m → sackBit mask o = true →
      sackWindow c (start + o) →
      (rbufferGet c.outbuf (start + o) = none ∨ slotLive c (start + o)) →
      rbufferGet (selAckGo start mask now c m).outbuf (start + o) = none := by
  intro m
  induction m with
  | zero =>
    intro c o ho
    exact absurd ho (Nat.not_lt_zero o)
  | succ m ih =>
    intro c o ho hbit hwin hstate
    rw [selAckGo_succ]
    rcases Nat.lt_or_ge o m with hlt | hge
    · refine ih (selAckBody c start mask now m) o hlt hbit ?_ ?_
      · obtain ⟨hq, hs, _⟩ := selAckBody_fields c start mask now m
        unfold sackWindow at hwin ⊢
        rw [hq, hs]
        exact hwin
      · rcases hstate with hn | hl
        · exact Or.inl (selAckBody_none c start mask now m _ hn)
        · rcases selAckBody_slot c start mask now m (start + o) with h | h
          · exact Or.inl h
          · obtain ⟨pw, hget, htr⟩ := hl
            exact Or.inr ⟨pw, h.trans hget, htr⟩
    · have heq : o = m := Nat.le_antisymm (Nat.lt_succ_iff.mp ho) hge
      subst heq
      rcases hstate with hn | hl
      · exact selAckGo_none start mask now (start + o) o _
          (selAckBody_none c start mask now o _ hn)
      · rw [selAckBody_hit c start mask now o hwin hbit hl]
        exact selAckGo_none start mask now (start + o) o _
          (ackPacket_cleared c (start + o) now hl)

/-- Two sequences whose backward distances from `seqnr - 1` are both at
most `queue - 1` and whose ring slots alias have equal distances: the
(extended) window fits inside one ring revolution. -/
theorem sack_alias_dist (c : Conn) (v v2 : Int)
    (hq1 : 1 ≤ c.queue) (hq2 : c.queue ≤ RDP_QUEUE_SIZE_MAX)
    (hqsz : c.queue ≤ c.outbuf.mask + 1)
    (hdvd : ((c.outbuf.mask + 1 : Nat) : Int) ∣ 65536)
    (hd1 : ((c.seqnr : Int) - v - 1) % 65536 ≤ (c.queue : Int) - 1)
    (hd2 : ((c.seqnr : Int) - v2 - 1) % 65536 ≤ (c.queue : Int) - 1)
    (halias : (v - v2) % ((c.outbuf.mask : Int) + 1) = 0) :
    ((c.seqnr : Int) - v - 1) % 65536 = ((c.seqnr : Int) - v2 - 1) % 65536 := by
  have hq2v : c.queue ≤ 16384 := hq2
  have hcast : ((c.outbuf.mask : Int) + 1) = ((c.outbuf.mask + 1 : Nat) : Int) := by
    push_cast; ring
  have hdvdv : ((c.outbuf.mask + 1 : Nat) : Int) ∣ (v - v2) := by
    rw [hcast] at halias
    exact Int.dvd_of_emod_eq_zero halias
  have h1 : ((c.seqnr : Int) - v - 1) % 65536 % ((c.outbuf.mask + 1 : Nat) : Int) =
      ((c.seqnr : Int) - v - 1) % ((c.outbuf.mask + 1 : Nat) : Int) :=
    Int.emod_emod_of_dvd _ hdvd
  have h2 : ((c.seqnr : Int) - v2 - 1) % 65536 % ((c.outbuf.mask + 1 : Nat) : Int) =
      ((c.seqnr : Int) - v2 - 1) % ((c.outbuf.mask + 1 : Nat) : Int) :=
    Int.emod_emod_of_dvd _ hdvd
  have hsub : (((c.seqnr : Int) - v - 1) % 65536 -
      ((c.seqnr : Int) - v2 - 1) % 65536) % ((c.outbuf.mask + 1 : Nat) : Int) = 0 := by
    rw [Int.sub_emod, h1, h2, ← Int.sub_emod]
    have he : (c.seqnr : Int) - v - 1 - ((c.seqnr : Int) - v2 - 1) = -(v - v2) := by
      ring
    rw [he]
    exact Int.emod_eq_zero_of_dvd (dvd_neg.mpr hdvdv)
  have hdvdd : ((c.outbuf.mask + 1 : Nat) : Int) ∣
      (((c.seqnr : Int) - v - 1) % 65536 - ((c.seqnr : Int) - v2 - 1) % 65536) :=
    Int.dvd_of_emod_eq_zero hsub
  have hzero : ((c.seqnr : Int) - v - 1) % 65536 -
      ((c.seqnr : Int) - v2 - 1) % 65536 = 0 := by
    refine Int.eq_zero_of_abs_lt_dvd hdvdd ?_
    rw [abs_lt]
    constructor <;> omega
  omega

/-- `sackBit` at offsets below `len * 8` reads only mask bytes below
`len`. -/
theorem sackBit_congr (mask mask2 : List Nat) (len : Nat)
    (hbytes : ∀ j : Nat, j < len → mask.getD j 0 = mask2.getD j 0)
    (o : Nat) (ho : o < len * 8) :
    sackBit mask o = sackBit mask2 o := by
  unfold sackBit
  rw [if_neg (by omega), if_neg (by omega), Int.toNat_natCast,
    hbytes (o / 8) (by omega)]

/-- The loop body depends on the mask only through its own bit. -/
theorem selAckBody_congr (c : Conn) (start : Int) (mask mask2 : List Nat)
    (now : Nat) (off : Int) (hb : sackBit mask off = sackBit mask2 off) :
    selAckBody c start mask now off = selAckBody c start mask2 now off := by
  unfold selAckBody
  rw [hb]

/-- The whole loop reads only mask bytes below `len`. -/
theorem selAckGo_congr (start : Int) (mask mask2 : List Nat) (now : Nat)
    (len : Nat)
    (hbytes : ∀ j : Nat, j < len → mask.getD j 0 = mask2.getD j 0) :
    ∀ (m : Nat), m ≤ len * 8 → ∀ (c : Conn),
      selAckGo start mask now c m = selAckGo start mask2 now c m := by
  intro m
  induction m with
  | zero =>
    intro _ c
    rw [selAckGo_zero, selAckGo_zero, selAckBody_neg_one, selAckBody_neg_one]
  | succ m ih =>
    intro hm c
    rw [selAckGo_succ, selAckGo_succ,
      selAckBody_congr c start mask mask2 now m
        (sackBit_congr mask mask2 len hbytes m (by omega)),
      ih (by omega) _]

/-- C4 counterexample: on `connSack` (`seqnr = 10`, `queue = 2`, live
slots at 8 and 9) the sequence `8 = seqnr - queue` lies in the claimed
ack range `[seqnr - queue, seqnr)` and its SACK bit (offset 0 of mask
`[1]` with `startSeqnr = 8`) is set, yet `selectiveAck` leaves the slot
in place: the loop guard also excludes the oldest unacked sequence. -/
theorem selective_ack_counterexample :
    connSack.seqnr = 10 ∧ connSack.queue = 2 ∧
    ((connSack.seqnr : Int) - 8 - 1) % 65536 ≤ (connSack.queue : Int) - 1 ∧
    sackBit [1] 0 = true ∧
    slotLive connSack 8 ∧
    rbufferGet (selectiveAck connSack 8 [1] 1 7).outbuf 8 = some (pwSent 8) :=
  ⟨rfl, rfl, by decide, by decide, ⟨pwSent 8, rfl, by decide⟩, rfl⟩

/-- C4 (amended): `selectiveAck(c, startSeqnr, mask, len)` (reached from
`rdpReadPoll` when `queue > 0` and a SACK extension is present) visits
bit offsets from `len*8 - 1` down to `-1`; the final `-1` iteration is a
no-op (the bit test short-circuits, so no mask byte is read there).
Under the send-buffer invariants (`1 ≤ queue ≤ QUEUE_SIZE_MAX`, `queue`
at most the ring size, ring size a power of two dividing `2^16`, `len`
a `uint8_t`): (W) the loop guard admits exactly the sequences in
`[seqnr - queue + 1, seqnr)` mod `2^16` (backward distance from
`seqnr - 1` at most `queue - 2`) — not `[seqnr - queue, seqnr)`; (A1)
every offset below `len*8` whose bit is set, whose sequence is in that
window and whose slot holds a transmitted packet has its slot cleared
(acknowledged via `ackPacket`); (B) a slot at backward distance exactly
`queue - 1` — the oldest unacked sequence `seqnr - queue` — is never
acknowledged; (A2) any ring slot aliased by no set-bit in-window offset
is untouched; (C) only mask bytes at indices in `[0, len)` are read. -/
theorem selective_ack_range (c : Conn) (start : Int) (mask : List Nat)
    (len : Nat) (now : Nat)
    (hq1 : 1 ≤ c.queue) (hq2 : c.queue ≤ RDP_QUEUE_SIZE_MAX)
    (hqsz : c.queue ≤ c.outbuf.mask + 1)
    (hdvd : ((c.outbuf.mask + 1 : Nat) : Int) ∣ 65536)
    (hlen : len ≤ 255) :
    (∀ v : Int, sackWindow c v ↔
      ((c.seqnr : Int) - v - 1) % 65536 ≤ (c.queue : Int) - 2) ∧
    (∀ c' : Conn, selAckBody c' start mask now (-1) = c') ∧
    (∀ o : Nat, o < len * 8 → sackBit mask o = true →
      sackWindow c (start + o) → slotLive c (start + o) →
      rbufferGet (selectiveAck c start mask len now).outbuf (start + o) = none) ∧
    (∀ w : Int, ((c.seqnr : Int) - w - 1) % 65536 = (c.queue : Int) - 1 →
      rbufferGet (selectiveAck c start mask len now).outbuf w =
        rbufferGet c.outbuf w) ∧
    (∀ w : Int,
      (∀ o : Nat, o < len * 8 → sackBit mask o = true →
        sackWindow c (start + o) →
        (start + o) % ((c.outbuf.mask : Int) + 1) ≠
          w % ((c.outbuf.mask : Int) + 1)) →
      rbufferGet (selectiveAck c start mask len now).outbuf w =
        rbufferGet c.outbuf w) ∧
    (∀ mask2 : List Nat,
      (∀ j : Nat, j < len → mask.getD j 0 = mask2.getD j 0) →
      selectiveAck c start mask len now = selectiveAck c start mask2 len now) := by
  have hq2v : c.queue ≤ 16384 := hq2
  refine ⟨?_, ?_, ?_, ?_, ?_, ?_⟩
  · intro v
    unfold sackWindow
    constructor <;> (intro h; omega)
  · intro c'
    exact selAckBody_neg_one c' start mask now
  · intro o ho hbit hwin hl
    exact selAckGo_cleared start mask now (len * 8) c o ho hbit hwin (Or.inr hl)
  · intro w hw
    apply selAckGo_preserve start mask now w (len * 8) c
    intro o ho hbit hwin heq
    have halias : ((start + o) - w) % ((c.outbuf.mask : Int) + 1) = 0 := by
      rw [Int.sub_emod, heq, sub_self, Int.zero_emod]
    have hwin2 : ((c.seqnr : Int) - (start + o) - 1) % 65536 ≤
        (c.queue : Int) - 1 := by
      unfold sackWindow at hwin
      omega
    have hd := sack_alias_dist c (start + o) w hq1 hq2 hqsz hdvd hwin2
      (le_of_eq hw) halias
    unfold sackWindow at hwin
    omega
  · intro w hno
    exact selAckGo_preserve start mask now w (len * 8) c hno
  · intro mask2 hbytes
    exact selAckGo_congr start mask mask2 now len hbytes (len * 8) (le_refl _) c

/-- C4 witness: on `connSack` (`seqnr = 10`, `queue = 2`, live slots at
8 and 9, ring size 64) with `startSeqnr = 8`, mask `[2]` (bit for offset
1, sequence 9) and `len = 1`: slot 9 is acknowledged and the oldest
unacked slot 8 is untouched. -/
theorem selective_ack_range_witness :
    1 ≤ connSack.queue ∧ connSack.queue ≤ RDP_QUEUE_SIZE_MAX ∧
    connSack.queue ≤ connSack.outbuf.mask + 1 ∧
    ((connSack.outbuf.mask + 1 : Nat) : Int) ∣ 65536 ∧ (1 : Nat) ≤ 255 ∧
    rbufferGet (selectiveAck connSack 8 [2] 1 7).outbuf (8 + ((1 : Nat) : Int)) = none ∧
    rbufferGet (selectiveAck connSack 8 [2] 1 7).outbuf 8 =
      rbufferGet connSack.outbuf 8 := by
  have h := selective_ack_range connSack 8 [2] 1 7 (by decide) (by decide)
    (by decide) (by decide) (by decide)
  refine ⟨by decide, by decide, by decide, by decide, by decide, ?_, ?_⟩
  · exact h.2.2.1 1 (by decide) (by decide)
      (by unfold sackWindow; decide) ⟨pwSent 9, rfl, by decide⟩
  · exact h.2.2.2.1 8 (by decide)

/-- C1 witness: the amended theorem on a fresh connected connection
writing 1391 bytes: two packets are enqueued. -/
theorem mss_segmentation_witness :
    (rdpWriteVec { connEx with state := CS_CONNECTED } [1391] 3).1 = Except.ok 1391 ∧
    (rdpWriteVec { connEx with state := CS_CONNECTED } [1391] 3).2.queue = 2 ∧
    allPayloadLe (rdpWriteVec { connEx with state := CS_CONNECTED } [1391] 3).2 :=
  mss_segmentation.2 { connEx with state := CS_CONNECTED } [1391] 3 rfl (by decide) rfl
    (by decide) (by decide) (by decide) (by decide) (by decide) ⟨⟨6, rfl⟩, by decide⟩
    (fun _ _ h => Option.noConfusion h)

end Librdp
